import Mathlib

/-!
# Netsy: a shallow embedding of the write-side consistency engine

This file embeds, in Lean 4, the parts of the netsy repository needed to
check the specification's claims about:

* the local index commit primitive `InsertRecord` (src/internal/localdb/insert.go),
* the leader transaction pipeline `LeaderTxn` / `ParseTxnRequest` /
  `BuildTxnResponse` (src/internal/peerapi/leader_txn.go) together with the
  revision counter (src/internal/peerapi/server.go),
* the read path `commonapi.Range` and the index query `FindRecordsBy`
  (src/internal/localdb/find.go),
* the watch range matcher `isInRange` (src/internal/clientapi/watch.go),
* the snapshot threshold policy `shouldCreateSnapshot` (internal/snapshot),
* the datafile writer and reader (src/internal/datafile/writer.go, reader.go).

Go byte slices are modelled as `List Nat` (each entry one byte), Go `int64`
as `Int`, Go `uint64` as `Nat`, timestamps as `Option Int` (an abstract
instant; `none` is Go's nil timestamp pointer).  Fallible Go functions
return `Except`/`Option`; a Go runtime panic is modelled by `Option.none`
(or a dedicated error constructor) on the corresponding partial operation.
-/

namespace Netsy

/-! ## Bytes and varint framing

`protodelim.MarshalTo` writes a message as a varint length prefix followed
by the `proto.Marshal` bytes.  We model `proto.Marshal` for the three
messages of src/proto (`Record`, `FileHeader`, `FileFooter`) as a
deterministic, injective field-by-field serialization with an exact
inverse parser; the external protobuf library is a collaborator whose
encode/decode contract is what the repository's code relies on. -/

/-- Base-128 varint encoding of a natural number (little-endian groups,
continuation bit on every group but the last). -/
def encodeVarint (n : Nat) : List Nat :=
  if h : n < 128 then [n] else (n % 128 + 128) :: encodeVarint (n / 128)
  decreasing_by exact Nat.div_lt_self (by omega) (by omega)

/-- Inverse of `encodeVarint`, returning the decoded value and the rest of
the stream. -/
def decodeVarint : List Nat → Option (Nat × List Nat)
  | [] => none
  | b :: rest =>
    if b < 128 then some (b, rest)
    else
      match decodeVarint rest with
      | some (n, r) => some (n * 128 + (b - 128), r)
      | none => none

/-- Zigzag mapping of an integer onto a natural number (injective model of
the protobuf int64 wire mapping). -/
def zigzag (i : Int) : Nat :=
  if 0 ≤ i then 2 * i.toNat else 2 * (-i).toNat - 1

/-- Inverse of `zigzag`. -/
def unzigzag (n : Nat) : Int :=
  if n % 2 = 0 then ((n / 2 : Nat) : Int) else -(((n + 1) / 2 : Nat) : Int)

/-- Encode an integer field. -/
def encInt (i : Int) : List Nat := encodeVarint (zigzag i)

/-- Decode an integer field. -/
def decInt (bs : List Nat) : Option (Int × List Nat) :=
  match decodeVarint bs with
  | some (n, r) => some (unzigzag n, r)
  | none => none

/-- Encode an unsigned 64-bit field. -/
def encNat (n : Nat) : List Nat := encodeVarint n

/-- Decode an unsigned 64-bit field. -/
def decNat (bs : List Nat) : Option (Nat × List Nat) := decodeVarint bs

/-- Length-prefixed byte string (also used as the varint frame of
`protodelim`). -/
def encLen (bs : List Nat) : List Nat := encodeVarint bs.length ++ bs

/-- Decode a length-prefixed byte string. -/
def decLen (bs : List Nat) : Option (List Nat × List Nat) :=
  match decodeVarint bs with
  | some (n, r) => if n ≤ r.length then some (r.take n, r.drop n) else none
  | none => none

/-- Encode a boolean field. -/
def encBool (b : Bool) : List Nat := [if b then 1 else 0]

/-- Decode a boolean field. -/
def decBool : List Nat → Option (Bool × List Nat)
  | [] => none
  | b :: rest => if b = 0 then some (false, rest) else if b = 1 then some (true, rest) else none

/-- Encode an optional instant (a nil-or-present `google.protobuf.Timestamp`). -/
def encOptInt : Option Int → List Nat
  | none => [0]
  | some t => 1 :: encInt t

/-- Decode an optional instant. -/
def decOptInt : List Nat → Option (Option Int × List Nat)
  | [] => none
  | 0 :: rest => some (none, rest)
  | 1 :: rest =>
    (match decInt rest with
     | some (t, r) => some (some t, r)
     | none => none)
  | _ :: _ => none

/-! ## CRC-64 (ECMA polynomial, reflected form)

Faithful model of Go's `hash/crc64` with `crc64.ECMA`: the table-driven Go
implementation computes exactly this bitwise least-significant-bit-first
algorithm with the reversed ECMA polynomial. -/

/-- The reversed ECMA-182 polynomial used by `crc64.MakeTable(crc64.ECMA)`. -/
def crc64Poly : Nat := 0xC96C5795D7870F42

/-- One bit step of the reflected CRC-64. -/
def crc64StepBit (c : Nat) : Nat :=
  if c % 2 = 1 then (c / 2) ^^^ crc64Poly else c / 2

/-- Process one byte. -/
def crc64Byte (c b : Nat) : Nat :=
  (List.range 8).foldl (fun acc _ => crc64StepBit acc) (c ^^^ b)

/-- Process a byte string given the current internal state. -/
def crc64Update (c : Nat) (bs : List Nat) : Nat := bs.foldl crc64Byte c

/-- Checksum as computed by `crc64.Checksum(bs, crc64.MakeTable(crc64.ECMA))`. -/
def crc64Checksum (bs : List Nat) : Nat :=
  crc64Update 0xFFFFFFFFFFFFFFFF bs ^^^ 0xFFFFFFFFFFFFFFFF

/-! ## The proto messages (src/proto/record.proto, src/proto/file.proto) -/

/-- Message `netsy.Record` (src/proto/record.proto). -/
structure Record where
  revision : Int
  key : List Nat
  created : Bool
  deleted : Bool
  createRevision : Int
  prevRevision : Int
  version : Int
  lease : Int
  dek : Int
  value : List Nat
  createdAt : Option Int
  compactedAt : Option Int
  leaderId : List Nat
  replicatedAt : Option Int
  crc : Nat
  deriving DecidableEq, Repr

/-- The zero `proto.Record` (all fields unset). -/
def Record.zero : Record :=
  { revision := 0, key := [], created := false, deleted := false
    createRevision := 0, prevRevision := 0, version := 0, lease := 0, dek := 0
    value := [], createdAt := none, compactedAt := none, leaderId := []
    replicatedAt := none, crc := 0 }

/-- Enum `netsy.FileKind` (src/proto/file.proto). -/
inductive FileKind | unknown | snapshot | chunk
  deriving DecidableEq, Repr

/-- Enum `netsy.FileCompression` (src/proto/file.proto). -/
inductive FileCompression | unknown | none | zstd
  deriving DecidableEq, Repr

/-- Message `netsy.FileHeader` (src/proto/file.proto). -/
structure FileHeader where
  schemaVersion : Nat
  kind : FileKind
  compression : FileCompression
  recordsCount : Int
  leaderId : List Nat
  createdAt : Option Int
  crc : Nat
  deriving DecidableEq, Repr

/-- Message `netsy.FileFooter` (src/proto/file.proto). -/
structure FileFooter where
  recordsCrc : Nat
  firstRevision : Int
  lastRevision : Int
  crc : Nat
  deriving DecidableEq, Repr

/-- Serialize a `FileKind` enum value. -/
def encKind : FileKind → List Nat
  | .unknown => [0]
  | .snapshot => [1]
  | .chunk => [2]

/-- Decode a `FileKind` enum value. -/
def decKind : List Nat → Option (FileKind × List Nat)
  | 0 :: rest => some (.unknown, rest)
  | 1 :: rest => some (.snapshot, rest)
  | 2 :: rest => some (.chunk, rest)
  | _ => Option.none

/-- Serialize a `FileCompression` enum value. -/
def encCompression : FileCompression → List Nat
  | .unknown => [0]
  | .none => [1]
  | .zstd => [2]

/-- Decode a `FileCompression` enum value. -/
def decCompression : List Nat → Option (FileCompression × List Nat)
  | 0 :: rest => some (.unknown, rest)
  | 1 :: rest => some (.none, rest)
  | 2 :: rest => some (.zstd, rest)
  | _ => Option.none

/-- Model of `proto.Marshal` for `netsy.Record`: deterministic injective serialization
of the message's fields in field-number order (split into four groups to
keep the parser compositional). -/
def encRec1 (r : Record) : List Nat :=
  encNat r.crc ++ encInt r.revision ++ encLen r.key ++ encBool r.created

/-- Parse the first field group of a `Record`. -/
def decRec1 (bs : List Nat) : Option ((Nat × Int × List Nat × Bool) × List Nat) := do
  let (crc, bs) ← decNat bs
  let (revision, bs) ← decInt bs
  let (key, bs) ← decLen bs
  let (created, bs) ← decBool bs
  pure ((crc, revision, key, created), bs)

/-- Second field group of a `Record`. -/
def encRec2 (r : Record) : List Nat :=
  encBool r.deleted ++ encInt r.createRevision ++ encInt r.prevRevision ++ encInt r.version

/-- Parse the second field group of a `Record`. -/
def decRec2 (bs : List Nat) : Option ((Bool × Int × Int × Int) × List Nat) := do
  let (deleted, bs) ← decBool bs
  let (createRevision, bs) ← decInt bs
  let (prevRevision, bs) ← decInt bs
  let (version, bs) ← decInt bs
  pure ((deleted, createRevision, prevRevision, version), bs)

/-- Third field group of a `Record`. -/
def encRec3 (r : Record) : List Nat :=
  encInt r.lease ++ encInt r.dek ++ encLen r.value ++ encOptInt r.createdAt

/-- Parse the third field group of a `Record`. -/
def decRec3 (bs : List Nat) : Option ((Int × Int × List Nat × Option Int) × List Nat) := do
  let (lease, bs) ← decInt bs
  let (dek, bs) ← decInt bs
  let (value, bs) ← decLen bs
  let (createdAt, bs) ← decOptInt bs
  pure ((lease, dek, value, createdAt), bs)

/-- Fourth field group of a `Record`. -/
def encRec4 (r : Record) : List Nat :=
  encOptInt r.compactedAt ++ encLen r.leaderId ++ encOptInt r.replicatedAt

/-- Parse the fourth field group of a `Record`. -/
def decRec4 (bs : List Nat) : Option ((Option Int × List Nat × Option Int) × List Nat) := do
  let (compactedAt, bs) ← decOptInt bs
  let (leaderId, bs) ← decLen bs
  let (replicatedAt, bs) ← decOptInt bs
  pure ((compactedAt, leaderId, replicatedAt), bs)

/-- Model of `proto.Marshal` for `netsy.Record`. -/
def marshalRecord (r : Record) : List Nat :=
  encRec1 r ++ encRec2 r ++ encRec3 r ++ encRec4 r

/-- Model of `proto.Unmarshal` for `netsy.Record`; consumes whatever the
encoder produced and returns the rest of the stream. -/
def parseRecordFrom (bs : List Nat) : Option (Record × List Nat) := do
  let ((crc, revision, key, created), bs) ← decRec1 bs
  let ((deleted, createRevision, prevRevision, version), bs) ← decRec2 bs
  let ((lease, dek, value, createdAt), bs) ← decRec3 bs
  let ((compactedAt, leaderId, replicatedAt), bs) ← decRec4 bs
  pure ({ revision, key, created, deleted, createRevision, prevRevision,
          version, lease, dek, value, createdAt, compactedAt,
          leaderId, replicatedAt, crc }, bs)

/-- Model of `proto.Marshal` for `netsy.FileHeader`, in field-number order. -/
def marshalHeader (h : FileHeader) : List Nat :=
  encNat h.crc ++ encNat h.schemaVersion ++ encKind h.kind ++
  encCompression h.compression ++ encInt h.recordsCount ++ encLen h.leaderId ++
  encOptInt h.createdAt

/-- Model of `proto.Unmarshal` for `netsy.FileHeader`. -/
def parseHeaderFrom (bs : List Nat) : Option (FileHeader × List Nat) := do
  let (crc, bs) ← decNat bs
  let (schemaVersion, bs) ← decNat bs
  let (kind, bs) ← decKind bs
  let (compression, bs) ← decCompression bs
  let (recordsCount, bs) ← decInt bs
  let (leaderId, bs) ← decLen bs
  let (createdAt, bs) ← decOptInt bs
  pure ({ schemaVersion, kind, compression, recordsCount, leaderId, createdAt, crc }, bs)

/-- Model of `proto.Marshal` for `netsy.FileFooter`, in field-number order. -/
def marshalFooter (f : FileFooter) : List Nat :=
  encNat f.recordsCrc ++ encInt f.firstRevision ++ encInt f.lastRevision ++ encNat f.crc

/-- Model of `proto.Unmarshal` for `netsy.FileFooter`. -/
def parseFooterFrom (bs : List Nat) : Option (FileFooter × List Nat) := do
  let (recordsCrc, bs) ← decNat bs
  let (firstRevision, bs) ← decInt bs
  let (lastRevision, bs) ← decInt bs
  let (crc, bs) ← decNat bs
  pure ({ recordsCrc, firstRevision, lastRevision, crc }, bs)

/-! ## The local index (src/internal/localdb)

The `records` table is modelled as the list of its rows in insertion
order.  All reachable indices have positive, distinct revisions, so
`SELECT revision FROM records ORDER BY revision DESC LIMIT 1` (with 0 for
an empty table) and `COALESCE(MAX(revision), 0)` are both modelled by
`maxRevision`. -/

/-- Latest revision in the table, 0 when empty: used both for
`LatestRevision()` (src/internal/localdb/connect.go) and for the
`latest_revision_for_table` CTE of `insertRecordSQL`. -/
def maxRevision (idx : List Record) : Int :=
  idx.foldl (fun m r => max m r.revision) 0

/-- The `latest_revision_for_key` CTE of `insertRecordSQL`: the row for
`key` with the greatest revision, if any. -/
def latestForKey (idx : List Record) (key : List Nat) : Option Record :=
  match idx.filter (fun r => r.key = key) with
  | [] => Option.none
  | r :: rs => some (rs.foldl (fun b c => if b.revision < c.revision then c else b) r)

/-- The latest row for `key` when it is live, i.e. the
`latest_revision_for_key WHERE deleted = 0` subquery. -/
def liveLatestForKey (idx : List Record) (key : List Nat) : Option Record :=
  match latestForKey idx key with
  | some l => if l.deleted then Option.none else some l
  | Option.none => Option.none

/-- Error classes surfaced by `InsertRecord` (src/internal/localdb/insert.go). -/
inductive InsertError
  /-- The up-front field validation failed ("invalid record data for insert"). -/
  | invalidRecord
  /-- SQLite NOT NULL failure on `records.created` → `ErrCreateKeyExists`. -/
  | createKeyExists
  /-- SQLite NOT NULL failure on `records.deleted` → `ErrDeleteKeyNotFound`. -/
  | deleteKeyNotFound
  /-- SQLite NOT NULL failure on `records.prev_revision` → `ErrCompareRevisionFailed`. -/
  | compareRevisionFailed
  /-- Any other SQLite constraint failure (primary key on `revision`, unique
  index on `(key, create_revision, prev_revision)`), surfaced verbatim. -/
  | constraintViolation
  deriving DecidableEq, Repr

/-- The field validation at the top of `InsertRecord` (insert.go lines 45-59). -/
def validDraft (record : Record) : Bool :=
  !(record.revision ≤ 0 ||
    record.key.length = 0 ||
    record.createRevision < 0 ||
    record.prevRevision < 0 ||
    record.version ≠ 0 ||
    record.lease < 0 ||
    record.dek < 0 ||
    record.createdAt.isSome ||
    record.compactedAt.isSome ||
    record.leaderId.length = 0 ||
    record.replicatedAt.isSome ||
    record.crc ≠ 0 ||
    (record.created && record.deleted))

/-- The `created` output column of `insertRecordSQL`: NULL (`Option.none`)
exactly when the draft is a create and the latest row for the key exists
and is live. -/
def insCreatedCol (idx : List Record) (record : Record) : Option Bool :=
  if record.created then
    match latestForKey idx record.key with
    | some l => if l.deleted = false then Option.none else some true
    | Option.none => some true
  else some false

/-- The `deleted` output column of `insertRecordSQL`: NULL exactly when the
draft is a delete and the latest row for the key is absent or deleted. -/
def insDeletedCol (idx : List Record) (record : Record) : Option Bool :=
  if record.deleted then
    match latestForKey idx record.key with
    | some l => if l.deleted = false then some true else Option.none
    | Option.none => Option.none
  else some false

/-- The `create_revision` output column:
`COALESCE(live_latest.create_revision, max_revision_overall + 1)`. -/
def insCreateRevisionCol (idx : List Record) (record : Record) : Int :=
  match liveLatestForKey idx record.key with
  | some l => l.createRevision
  | Option.none => maxRevision idx + 1

/-- The `IFNULL((SELECT revision FROM latest_revision_for_key WHERE deleted = 0), 0)`
subexpression of the `prev_revision` column. -/
def insLiveRevision (idx : List Record) (record : Record) : Int :=
  match liveLatestForKey idx record.key with
  | some l => l.revision
  | Option.none => 0

/-- The `prev_revision` output column: NULL exactly when the compare fails
(`prev_revision > 0` and the live latest revision differs, or
`prev_revision = 0` and a live row exists). -/
def insPrevRevisionCol (idx : List Record) (record : Record) : Option Int :=
  if record.prevRevision > 0 then
    if record.prevRevision = insLiveRevision idx record then some record.prevRevision
    else Option.none
  else
    if insLiveRevision idx record > 0 then Option.none else some 0

/-- The `version` output column: 0 on a delete, otherwise the latest row's
version (deleted or not) plus one. -/
def insVersionCol (idx : List Record) (record : Record) : Int :=
  if record.deleted then 0
  else
    (match latestForKey idx record.key with
     | some l => l.version
     | Option.none => 0) + 1

/-- SQLite primary-key check on `records.revision`. -/
def pkViolation (idx : List Record) (record : Record) : Bool :=
  idx.any (fun e => e.revision = record.revision)

/-- SQLite check of the unique index
`records_key_create_rev_prev_rev_uindex (key, create_revision, prev_revision)`. -/
def ukViolation (idx : List Record) (key : List Nat) (createRev prevRev : Int) : Bool :=
  idx.any (fun e => e.key = key && e.createRevision = createRev && e.prevRevision = prevRev)

/-- Model of `database.InsertRecord` (src/internal/localdb/insert.go): field
validation, timestamp stamping, then the single-statement insert whose
conditional columns turn policy violations into NOT NULL failures.  SQLite
checks NOT NULL constraints in table column order
(`created`, `deleted`, `prev_revision`; connect.go migration) and the
index constraints on the actual insertion, which fixes the error
precedence.  On success the appended row is also returned
(`RETURNING *`). -/
def insertRecord (idx : List Record) (record : Record) (now : Int) :
    Except InsertError (List Record × Record) :=
  if !(validDraft record) then .error .invalidRecord
  else
    match insCreatedCol idx record with
    | Option.none => .error .createKeyExists
    | some createdV =>
      match insDeletedCol idx record with
      | Option.none => .error .deleteKeyNotFound
      | some deletedV =>
        match insPrevRevisionCol idx record with
        | Option.none => .error .compareRevisionFailed
        | some prevV =>
          let createRevV := insCreateRevisionCol idx record
          let versionV := insVersionCol idx record
          if pkViolation idx record then .error .constraintViolation
          else if ukViolation idx record.key createRevV prevV then .error .constraintViolation
          else
            let row : Record :=
              { record with
                created := createdV
                deleted := deletedV
                createRevision := createRevV
                prevRevision := prevV
                version := versionV
                createdAt := some now }
            .ok (idx ++ [row], row)

/-! ## Sorting and byte comparison (SQLite BLOB ordering) -/

/-- Lexicographic (memcmp) strict order on byte strings. -/
def bytesLt : List Nat → List Nat → Bool
  | [], [] => false
  | [], _ :: _ => true
  | _ :: _, [] => false
  | a :: as, b :: bs => if a < b then true else if b < a then false else bytesLt as bs

/-- Lexicographic order, `a ≤ b`. -/
def bytesLe (a b : List Nat) : Bool := !(bytesLt b a)

/-- Drop trailing zero bytes (`bytes.TrimRight(x, "\x00")`). -/
def trimRightZero (bs : List Nat) : List Nat :=
  ((bs.reverse).dropWhile (fun b => b = 0)).reverse

/-- Insert into a sorted list (helper of `sortBy`). -/
def sortInsert {α : Type} (le : α → α → Bool) : α → List α → List α
  | a, [] => [a]
  | a, b :: bs => if le a b then a :: b :: bs else b :: sortInsert le a bs

/-- Insertion sort, modelling the SQL `ORDER BY` (stable; keys are unique
in the sorted result sets used here). -/
def sortBy {α : Type} (le : α → α → Bool) : List α → List α
  | [] => []
  | a :: as => sortInsert le a (sortBy le as)

/-! ## `FindRecordsBy` (src/internal/localdb/find.go) -/

/-- Sort order requested by `commonapi.Range` ("ASC" / "DESC"). -/
inductive SortOrder | asc | desc
  deriving DecidableEq, Repr

/-- The WHERE clauses `commonapi.Range` can pass to `FindRecordsBy`. -/
inductive WhereClause
  /-- `key = ?` -/
  | keyEq (k : List Nat)
  /-- no WHERE (match all keys) -/
  | all
  /-- `key >= ?` -/
  | keyGe (k : List Nat)
  /-- `key LIKE ?` with the percent wildcard appended: prefix match -/
  | keyLike (k : List Nat)
  /-- `key >= ? AND key < ?` -/
  | keyRange (k e : List Nat)
  deriving DecidableEq, Repr

/-- Row-level meaning of a `WhereClause`. -/
def whereMatch (w : WhereClause) (r : Record) : Bool :=
  match w with
  | .keyEq k => r.key = k
  | .all => true
  | .keyGe k => bytesLe k r.key
  | .keyLike k => k.isPrefixOf r.key
  | .keyRange k e => bytesLe k r.key && bytesLt r.key e

/-- Model of `database.FindRecordsBy`: filter, keep the latest revision per
key (`rn = 1`), drop deleted rows, order by key, apply the limit; returns
`(rows, totalCount, maxRevision)`.  `max_revision` and `records_count` are
scanned from the result rows, so both remain 0 when no row matches. -/
def findRecordsBy (idx : List Record) (w : WhereClause) (asOfRev limit : Int)
    (order : SortOrder) : List Record × Int × Int :=
  let filtered := idx.filter (fun r =>
    whereMatch w r && (asOfRev ≤ 0 || r.revision ≤ asOfRev))
  let latestRows := filtered.filter (fun r =>
    filtered.all (fun o => !(o.key = r.key && r.revision < o.revision)))
  let liveRows := latestRows.filter (fun r => r.deleted = false)
  let sorted := match order with
    | .asc => sortBy (fun a b => bytesLe a.key b.key) liveRows
    | .desc => sortBy (fun a b => bytesLe b.key a.key) liveRows
  let rows := if limit > 0 then sorted.take limit.toNat else sorted
  if rows.isEmpty then ([], 0, 0)
  else (rows, (liveRows.length : Int), maxRevision idx)

/-! ## `commonapi.Range` (src/unnamed/part_005, the `FindRecordsBy`-with-count
variant that matches the current `localdb.Database` interface) -/

/-- Subset of `etcdserverpb.RangeRequest` used by the code; absent protobuf
fields are their zero values. -/
structure RangeRequest where
  key : List Nat := []
  rangeEnd : List Nat := []
  limit : Int := 0
  revision : Int := 0
  sortOrder : Int := 0
  sortTarget : Int := 0
  serializable : Bool := false
  keysOnly : Bool := false
  countOnly : Bool := false
  minModRevision : Int := 0
  maxModRevision : Int := 0
  minCreateRevision : Int := 0
  maxCreateRevision : Int := 0
  deriving DecidableEq, Repr

/-- The `RangeRequest_DESCEND` enum value of `RangeRequest.SortOrder`. -/
def sortOrderDescend : Int := 2

/-- One `mvccpb.KeyValue` of a range response. -/
structure KeyValue where
  key : List Nat
  createRevision : Int
  modRevision : Int
  version : Int
  value : List Nat
  lease : Int
  deriving DecidableEq, Repr

/-- Subset of `etcdserverpb.RangeResponse`; `revision` is the header revision. -/
structure RangeResponse where
  revision : Int
  kvs : List KeyValue
  count : Int
  more : Bool
  deriving DecidableEq, Repr

/-- Errors of `commonapi.Range`.  `panicSliceBounds` models the Go runtime
panic raised by `keyCopy[:len(keyCopy)-1]` when the request key is empty. -/
inductive RangeError
  | unimplemented
  | invalidArgument
  | compacted
  | panicSliceBounds
  deriving DecidableEq, Repr

/-- Computation of `rangeEndPrefixValue` (part_005 lines 199-202 and
watch.go lines 458-462): drop the last byte and append it incremented,
with Go byte wrap-around; `Option.none` models the slice-bounds panic on
an empty input. -/
def rangePrefixEnd : List Nat → Option (List Nat)
  | [] => Option.none
  | b :: bs => some (go b bs)
where
  /-- Rebuild the list, bumping the final byte modulo 256. -/
  go : Nat → List Nat → List Nat
    | b, [] => [(b + 1) % 256]
    | b, c :: cs => b :: go c cs

/-- Convert an index row to the `mvccpb.KeyValue` built by `commonapi.Range`. -/
def rowToKV (r : Record) : KeyValue :=
  { key := r.key, createRevision := r.createRevision, modRevision := r.revision
    value := r.value, version := r.version, lease := r.lease }

/-- Tail of `commonapi.Range` once the WHERE clause is determined: run
`FindRecordsBy`, compute `More`, and assemble the response (`CountOnly`,
the per-row compaction check, or the key/value list). -/
def rangeQueryRun (idx : List Record) (r : RangeRequest) (w : WhereClause) :
    Except RangeError RangeResponse :=
  match findRecordsBy idx w r.revision r.limit
      (if r.sortOrder = sortOrderDescend then .desc else .asc) with
  | (rows, totalCount, maxRev) =>
    let more := totalCount > (rows.length : Int)
    if r.countOnly then
      .ok { revision := maxRev, kvs := [], count := totalCount, more := more }
    else if rows.any (fun row => row.compactedAt.isSome) then .error .compacted
    else
      .ok { revision := maxRev, kvs := rows.map rowToKV
            count := totalCount, more := more }

/-- The unsupported-option and limit checks at the top of
`commonapi.Range`, in source order; `Option.none` means all checks pass. -/
def rangeOptionCheck (r : RangeRequest) : Option RangeError :=
  if r.keysOnly then some .unimplemented
  else if r.maxCreateRevision ≠ 0 then some .unimplemented
  else if r.maxModRevision ≠ 0 then some .unimplemented
  else if r.minModRevision ≠ 0 then some .unimplemented
  else if r.minCreateRevision ≠ 0 then some .unimplemented
  else if r.serializable then some .unimplemented
  else if r.sortTarget ≠ 0 then some .unimplemented
  else if r.limit < 0 then some .invalidArgument
  else Option.none

/-- The WHERE-clause classification of `commonapi.Range`, given the
already-computed prefix-end value. -/
def rangeWhere (r : RangeRequest) (rangeEndPrefixValue : List Nat) : WhereClause :=
  if r.rangeEnd.length = 0 || r.rangeEnd = r.key ++ [0] then .keyEq r.key
  else if r.key = [0] && r.rangeEnd = [0] then .all
  else if r.rangeEnd = [0] then .keyGe r.key
  else if r.rangeEnd = rangeEndPrefixValue then .keyLike r.key
  else .keyRange r.key r.rangeEnd

/-- Model of `commonapi.Range`: option checks, WHERE-clause classification
(the prefix-end value is computed before the classification, so an empty
request key panics), the `FindRecordsBy` query, then response assembly. -/
def rangeQuery (idx : List Record) (r : RangeRequest) : Except RangeError RangeResponse :=
  match rangeOptionCheck r with
  | some e => .error e
  | Option.none =>
    match rangePrefixEnd r.key with
    | Option.none => .error .panicSliceBounds
    | some rangeEndPrefixValue =>
      rangeQueryRun idx r (rangeWhere r rangeEndPrefixValue)

/-! ## The watch range matcher (src/internal/clientapi/watch.go `isInRange`) -/

/-- Model of `isInRange`: `Option.none` models the Go slice-bounds panic,
which fires exactly when the record key is non-empty (so the prefix-end
value is computed) and the range key is empty. -/
def isInRange (key rangeKey rangeEnd : List Nat) : Option Bool :=
  if key.length > 0 && rangeKey.length = 0 then Option.none
  else
    let rangeKeyAndZeroByte := rangeKey ++ [0]
    let rangeEndPrefixValue : Option (List Nat) :=
      if key.length > 0 then rangePrefixEnd rangeKey else Option.none
    some (
      if rangeEnd.length = 0 || rangeEnd = rangeKeyAndZeroByte then
        key = trimRightZero rangeKey
      else if rangeKey = [0] && rangeEnd = [0] then true
      else if rangeEnd = [0] then bytesLe rangeKey key
      else if (match rangeEndPrefixValue with
               | some v => decide (rangeEnd = v)
               | Option.none => false) = true then rangeKey.isPrefixOf key
      else bytesLe rangeKey key && bytesLt key rangeEnd)

/-! ## The leader transaction engine (src/internal/peerapi) -/

/-- Subset of `etcdserverpb.PutRequest` used by `ParseTxnRequest`. -/
structure PutRequest where
  key : List Nat := []
  value : List Nat := []
  lease : Int := 0
  prevKv : Bool := false
  deriving DecidableEq, Repr

/-- Subset of `etcdserverpb.DeleteRangeRequest` used by `ParseTxnRequest`. -/
structure DeleteRangeRequest where
  key : List Nat := []
  rangeEnd : List Nat := []
  prevKv : Bool := false
  deriving DecidableEq, Repr

/-- The `request` oneof of `etcdserverpb.RequestOp`. -/
inductive RequestOp
  | put (p : PutRequest)
  | deleteRange (d : DeleteRangeRequest)
  | range (r : RangeRequest)
  deriving DecidableEq, Repr

/-- The `GetRequestPut` accessor (nil unless the oneof holds a put). -/
def RequestOp.getPut : RequestOp → Option PutRequest
  | .put p => some p
  | _ => Option.none

/-- The `GetRequestDeleteRange` accessor. -/
def RequestOp.getDeleteRange : RequestOp → Option DeleteRangeRequest
  | .deleteRange d => some d
  | _ => Option.none

/-- The `GetRequestRange` accessor. -/
def RequestOp.getRange : RequestOp → Option RangeRequest
  | .range r => some r
  | _ => Option.none

/-- The `Compare.Target` enum values used by the code. -/
inductive CompareTarget | version | create | mod | value | lease
  deriving DecidableEq, Repr

/-- The `Compare.Result` enum values used by the code. -/
inductive CompareResult | equal | greater | less | notEqual
  deriving DecidableEq, Repr

/-- Subset of `etcdserverpb.Compare` used by the code (the `MOD`/`EQUAL`
compare on a key's mod revision). -/
structure Compare where
  target : CompareTarget := .version
  result : CompareResult := .equal
  key : List Nat := []
  modRevision : Int := 0
  deriving DecidableEq, Repr

/-- Subset of `etcdserverpb.TxnRequest`. -/
structure TxnRequest where
  compare : List Compare := []
  success : List RequestOp := []
  failure : List RequestOp := []
  deriving DecidableEq, Repr

/-- Errors returned by `ParseTxnRequest`, one constructor per distinct
`fmt.Errorf` site plus `ErrUnsupported`. -/
inductive TxnParseError
  /-- "invalid request - missing required fields" -/
  | missingFields
  /-- "invalid request - prevKv not supported for success put operations" -/
  | prevKvPut
  /-- "invalid request - prevKv not supported for success delete operations" -/
  | prevKvDelete
  /-- "invalid request - key mismatch between compare and success operations" -/
  | successKeyMismatch
  /-- "invalid request - failure operation must contain a range request" -/
  | failureNotRange
  /-- "invalid request - rangeEnd not supported for failure range operations" -/
  | failureRangeEnd
  /-- "invalid request - key mismatch between compare and failure operations" -/
  | failureKeyMismatch
  /-- `ErrUnsupported` -/
  | unsupported
  deriving DecidableEq, Repr

/-- Model of `ParseTxnRequest` (src/internal/peerapi/leader_txn.go lines
153-224): validation, then classification into create / update / delete
drafts. -/
def parseTxnRequest (r : TxnRequest) : Except TxnParseError Record :=
  match r.compare, r.success with
  | [c], [s] =>
    if r.failure.length ≠ 0 ∧ r.failure.length ≠ 1 then .error .missingFields
    else if c.target ≠ CompareTarget.mod then .error .missingFields
    else if c.result ≠ CompareResult.equal then .error .missingFields
    else
      let compareKey := c.key
      let compareModRevision := c.modRevision
      let successPut := s.getPut
      let successDelete := s.getDeleteRange
      if (match successPut with | some p => p.prevKv | Option.none => false) then
        .error .prevKvPut
      else if (match successDelete with | some d => d.prevKv | Option.none => false) then
        .error .prevKvDelete
      else if (match successPut with
               | some p => decide (compareKey ≠ p.key)
               | Option.none => false) ||
              (match successDelete with
               | some d => decide (compareKey ≠ d.key)
               | Option.none => false) then
        .error .successKeyMismatch
      else
        match r.failure with
        | _f₁ :: _ :: _ => .error .missingFields
        | ffirst :: [] =>
          (match ffirst.getRange with
           | Option.none => .error .failureNotRange
           | some fr =>
             if fr.rangeEnd.length ≠ 0 then .error .failureRangeEnd
             else if compareKey ≠ fr.key then .error .failureKeyMismatch
             else classify compareModRevision successPut successDelete (some fr))
        | [] => classify compareModRevision successPut successDelete Option.none
  | _, _ => .error .missingFields
where
  /-- The create / update / delete classification (leader_txn.go lines 189-223). -/
  classify (compareModRevision : Int) (successPut : Option PutRequest)
      (successDelete : Option DeleteRangeRequest) (failureRange : Option RangeRequest) :
      Except TxnParseError Record :=
    match successPut, successDelete with
    | some p, Option.none =>
      if compareModRevision = 0 then
        .ok { Record.zero with
              key := p.key
              value := p.value
              lease := p.lease
              created := true
              deleted := false }
      else if compareModRevision > 0 ∧ failureRange.isSome then
        .ok { Record.zero with
              key := p.key
              value := p.value
              lease := p.lease
              created := false
              deleted := false
              prevRevision := compareModRevision }
      else .error .unsupported
    | Option.none, some d =>
      if compareModRevision > 0 ∧ failureRange.isSome then
        .ok { Record.zero with
              key := d.key
              value := []
              created := false
              deleted := true
              prevRevision := compareModRevision }
      else .error .unsupported
    | _, _ => .error .unsupported

/-- One `etcdserverpb.PutResponse` (only the header revision is set). -/
structure PutResponse where
  revision : Int
  deriving DecidableEq, Repr

/-- One `etcdserverpb.DeleteRangeResponse`. -/
structure DeleteRangeResponse where
  revision : Int
  deleted : Int
  deriving DecidableEq, Repr

/-- The `response` oneof of `etcdserverpb.ResponseOp`. -/
inductive ResponseOp
  | range (r : RangeResponse)
  | put (p : PutResponse)
  | deleteRange (d : DeleteRangeResponse)
  deriving DecidableEq, Repr

/-- Subset of `etcdserverpb.TxnResponse`; `revision` is the header revision. -/
structure TxnResponse where
  revision : Int := 0
  succeeded : Bool := false
  responses : List ResponseOp := []
  deriving DecidableEq, Repr

/-- Model of `BuildTxnResponse` (leader_txn.go lines 227-272). -/
def buildTxnResponse (record : Option Record) (rangeResp : Option RangeResponse) :
    TxnResponse :=
  match rangeResp with
  | some rr =>
    { revision := rr.revision, succeeded := false, responses := [.range rr] }
  | Option.none =>
    match record with
    | some rec =>
      if rec.deleted then
        { revision := rec.revision
          succeeded := true
          responses := [.deleteRange { revision := rec.revision, deleted := 1 }] }
      else
        { revision := rec.revision
          succeeded := true
          responses := [.put { revision := rec.revision }] }
    | Option.none => { revision := 0, succeeded := false, responses := [] }

/-- State of a `PeerAPIServer` together with the S3 bucket contents: the
local index rows, the atomic `nextRevisionID` counter, and the one-record
chunk objects uploaded so far. -/
structure ServerState where
  idx : List Record
  nextRevisionID : Int
  s3Chunks : List Record
  deriving DecidableEq, Repr

/-- Errors surfaced by `LeaderTxn` (wrapped `fmt.Errorf` values). -/
inductive LeaderTxnError
  /-- Parse or validation failure of the request. -/
  | parse (e : TxnParseError)
  /-- `InsertRecord` failed with anything the failure-range path does not handle. -/
  | insert (e : InsertError)
  /-- The failure-range query returned no response. -/
  | rangeFailed (e : RangeError)
  /-- The S3 chunk upload failed ("S3 upload failed"). -/
  | s3UploadFailed
  deriving DecidableEq, Repr

/-- Model of `PeerAPIServer.LeaderTxn` (leader_txn.go lines 56-150) on the
synchronous-replication path (`s3Client != nil`, the only supported
replication mode).  `leaderId` is `config.InstanceID()`, `now` the commit
timestamp, and `s3ok` the outcome of the `WriteRecord` upload.  Returns
the new state and either an error or `(inserted, response)` where
`inserted` is `nil` on the compare-failure path. -/
def leaderTxn (st : ServerState) (r : TxnRequest) (leaderId : List Nat) (now : Int)
    (s3ok : Bool) : ServerState × Except LeaderTxnError (Option Record × TxnResponse) :=
  match parseTxnRequest r with
  | .error e => (st, .error (.parse e))
  | .ok rec0 =>
    -- record := the parsed draft stamped with the leader id and the next revision
    match insertRecord st.idx
        { rec0 with leaderId := leaderId, revision := st.nextRevisionID } now with
    | .error e =>
      if e = .compareRevisionFailed ∧ r.failure.length = 1 then
        -- tx.Rollback(); execute the failure op (a single-key range on record.Key)
        match rangeQuery st.idx { key := rec0.key } with
        | .error re => (st, .error (.rangeFailed re))
        | .ok rr => (st, .ok (Option.none, buildTxnResponse Option.none (some rr)))
      else
        -- tx.Rollback(); surface the error
        (st, .error (.insert e))
    | .ok (idx2, inserted) =>
      if s3ok then
        -- WriteRecord succeeded; tx.Commit(); nextRevisionID.Add(1)
        ({ idx := idx2
           nextRevisionID := st.nextRevisionID + 1
           s3Chunks := st.s3Chunks ++ [inserted] },
         .ok (some inserted, buildTxnResponse (some inserted) Option.none))
      else
        -- tx.Rollback(); nothing durable happened
        (st, .error .s3UploadFailed)

/-- Model of `ClientAPIServer.Txn` (src/unnamed/part_003): call `LeaderTxn`
and on any error return a well-formed `TxnResponse` holding only the
best-effort latest revision. -/
def clientTxn (st : ServerState) (r : TxnRequest) (leaderId : List Nat) (now : Int)
    (s3ok : Bool) : ServerState × TxnResponse × Option Record :=
  let (st2, res) := leaderTxn st r leaderId now s3ok
  match res with
  | .error _ =>
    (st2, { revision := maxRevision st2.idx, succeeded := false, responses := [] },
     Option.none)
  | .ok (inserted, resp) => (st2, resp, inserted)

/-- Model of `initializeRevisionCounter` (src/internal/peerapi/server.go
lines 54-61), seeding the counter at startup with `LatestRevision() + 1`
over the given index (and an S3 bucket already holding `chunks`). -/
def initServer (idx : List Record) (chunks : List Record) : ServerState :=
  { idx := idx, nextRevisionID := maxRevision idx + 1, s3Chunks := chunks }

/-- Fold `leaderTxn` over a list of requests (with their leader id, commit
time and S3 outcome), collecting the records committed along the way. -/
def runTxns (st : ServerState) :
    List (TxnRequest × List Nat × Int × Bool) → ServerState × List Record
  | [] => (st, [])
  | (r, lid, now, s3ok) :: rest =>
    let (st2, res) := leaderTxn st r lid now s3ok
    let committed := match res with
      | .ok (some rec, _) => [rec]
      | _ => []
    let (stf, recs) := runTxns st2 rest
    (stf, committed ++ recs)

/-! ## The snapshot threshold policy (src/unnamed/part_007) -/

/-- The three snapshot thresholds from config; each is disabled when 0. -/
structure SnapshotConfig where
  thresholdRecords : Int
  thresholdSizeMB : Int
  thresholdAgeMinutes : Int
  deriving DecidableEq, Repr

/-- Nanoseconds in a `time.Minute`. -/
def nsPerMinute : Int := 60 * 1000000000

/-- Model of `Worker.shouldCreateSnapshot` (part_007 lines 150-195).  Times
are instants in nanoseconds; `lastTime = Option.none` models the zero
`time.Time`.  Go's `int64` division truncates toward zero (`Int.tdiv`). -/
def shouldCreateSnapshot (cfg : SnapshotConfig) (currentRevision : Int)
    (currentTime : Int) (cumulativeSize : Int) (lastRevision : Int)
    (lastTime : Option Int) : Bool :=
  if currentRevision ≤ lastRevision then false
  else if cfg.thresholdRecords > 0 && currentRevision - lastRevision ≥ cfg.thresholdRecords then
    true
  else
    let ageHit : Bool :=
      if cfg.thresholdAgeMinutes > 0 then
        match lastTime with
        | Option.none => true
        | some lt => currentTime - lt ≥ cfg.thresholdAgeMinutes * nsPerMinute
      else false
    if ageHit then true
    else if cfg.thresholdSizeMB > 0 &&
        Int.tdiv cumulativeSize (1024 * 1024) ≥ cfg.thresholdSizeMB then true
    else false

/-! ## The datafile codec (src/internal/datafile/writer.go, reader.go)

The header is written uncompressed; records and footer go through the
record writer, which is either the buffer itself (`COMPRESSION_NONE`) or a
ZSTD stream into the buffer (`COMPRESSION_ZSTD`).  The external
`klauspost/compress/zstd` codec is a collaborator modelled as an arbitrary
byte-stream transform bundled with its decompress-of-compress contract. -/

/-- An arbitrary correct stream codec, modelling the zstd encoder/decoder
pair used by the writer and reader. -/
structure ZstdCodec where
  comp : List Nat → List Nat
  decomp : List Nat → List Nat
  roundtrip : ∀ bs, decomp (comp bs) = bs

/-- The identity codec, a trivially correct `ZstdCodec`. -/
def idCodec : ZstdCodec :=
  { comp := id, decomp := id, roundtrip := fun _ => rfl }

/-- Write a varint-delimited message frame (`protodelim.MarshalTo`). -/
def frameOf (msgBytes : List Nat) : List Nat := encLen msgBytes

/-- Read one varint-delimited message (`protodelim.UnmarshalFrom`): read
the length, read that many bytes, unmarshal them completely.
`Option.none` covers both `io.EOF` and unmarshal failures, each of which
the reader turns into an error. -/
def parseDelim {α : Type} (parse : List Nat → Option (α × List Nat)) (bs : List Nat) :
    Option (α × List Nat) :=
  match decLen bs with
  | some (fr, rest) =>
    (match parse fr with
     | some (a, []) => some (a, rest)
     | _ => Option.none)
  | Option.none => Option.none

/-- State of a `datafile.Writer`.  `body` is everything written to the
record writer so far (before compression), `hasherBytes` everything fed to
the aggregate CRC hasher (whose `Sum64` is `crc64Checksum hasherBytes`). -/
structure WriterState where
  kind : FileKind
  compression : FileCompression
  recordsCount : Int
  headerBytes : List Nat
  body : List Nat
  hasherBytes : List Nat
  firstRevision : Int
  lastRevision : Int
  lastCount : Int
  deriving Repr

/-- Model of `NewWriterWithCompression` (writer.go lines 62-130): pick the
compression, build the header with its CRC, and emit it uncompressed.
`createdAt` stands for `timestamppb.Now()`. -/
def newWriterWithCompression (kind : FileKind) (recordsCount : Int)
    (leaderId : List Nat) (createdAt : Option Int)
    (forceCompression : Option FileCompression) : WriterState :=
  let compression := match forceCompression with
    | some c => c
    | Option.none => if kind = FileKind.snapshot then .zstd else .none
  let header0 : FileHeader :=
    { schemaVersion := 0, kind := kind, compression := compression
      recordsCount := recordsCount, leaderId := leaderId
      createdAt := createdAt, crc := 0 }
  let headerCrc := crc64Checksum (marshalHeader header0)
  { kind := kind
    compression := compression
    recordsCount := recordsCount
    headerBytes := frameOf (marshalHeader { header0 with crc := headerCrc })
    body := []
    hasherBytes := []
    firstRevision := 0
    lastRevision := 0
    lastCount := 0 }

/-- The record as it exists after `Writer.Write` stamped its CRC field. -/
def stampRecord (r : Record) : Record :=
  { r with crc := crc64Checksum (marshalRecord { r with crc := 0 }) }

/-- Model of `Writer.Write` (writer.go lines 132-161): stamp the record
CRC, write the framed record, feed the crc-zero bytes to the aggregate
hasher, update first/last revision and the count.  Also returns the
record as mutated (its `Crc` field is set in place in Go). -/
def writerWrite (w : WriterState) (record : Record) : WriterState × Record :=
  let data := marshalRecord { record with crc := 0 }
  let stamped := { record with crc := crc64Checksum data }
  ({ w with
     body := w.body ++ frameOf (marshalRecord stamped)
     hasherBytes := w.hasherBytes ++ data
     firstRevision := if w.firstRevision = 0 then record.revision else w.firstRevision
     lastCount := w.lastCount + 1
     lastRevision := record.revision }, stamped)

/-- Error of `Writer.Close`: "last count ... does not match expected count". -/
inductive WriterCloseError
  | countMismatch
  deriving DecidableEq, Repr

/-- Model of `Writer.Close` (writer.go lines 163-200): check the declared
count, emit the footer through the record writer, close the compressor
and flush.  The result is the complete file byte stream. -/
def writerClose (codec : ZstdCodec) (w : WriterState) :
    Except WriterCloseError (List Nat) :=
  if w.lastCount ≠ w.recordsCount then .error .countMismatch
  else
    let footer0 : FileFooter :=
      { recordsCrc := crc64Checksum w.hasherBytes
        firstRevision := w.firstRevision
        lastRevision := w.lastRevision
        crc := 0 }
    let footerCrc := crc64Checksum (marshalFooter footer0)
    let bodyAll := w.body ++ frameOf (marshalFooter { footer0 with crc := footerCrc })
    .ok (w.headerBytes ++
      (if w.compression = FileCompression.zstd then codec.comp bodyAll else bodyAll))

/-- State of a `datafile.Reader` after the header has been consumed;
`rest` is the remaining (already decompressed) record/footer stream. -/
structure ReaderState where
  kind : FileKind
  compression : FileCompression
  expectedRecordsCount : Int
  hasherBytes : List Nat
  firstRevision : Int
  lastRevision : Int
  lastCount : Int
  rest : List Nat
  deriving Repr

/-- Errors of `NewReader`, `Reader.Read` and `Reader.Close`, one
constructor per error return site. -/
inductive ReaderError
  | headerReadFailed
  | kindMismatch
  | unknownCompression
  | headerCrcMismatch
  /-- "unexpected end of file" / "failed to unmarshal record". -/
  | recordReadFailed
  | recordCrcMismatch
  | countMismatch
  | footerReadFailed
  | footerCrcMismatch
  | recordsCrcMismatch
  | firstRevisionMismatch
  | lastRevisionMismatch
  deriving DecidableEq, Repr

/-- Model of `NewReader` (reader.go lines 40-99): read the uncompressed
header, check the expected kind, reject unknown compression, verify the
header CRC, then select pass-through or the decompressor for the rest. -/
def newReader (codec : ZstdCodec) (bs : List Nat) (expectKind : Option FileKind) :
    Except ReaderError ReaderState :=
  match parseDelim parseHeaderFrom bs with
  | Option.none => .error .headerReadFailed
  | some (header, rest) =>
    if (match expectKind with
        | some k => decide (k ≠ header.kind)
        | Option.none => false) = true then .error .kindMismatch
    else if header.compression = FileCompression.unknown then .error .unknownCompression
    else if header.crc ≠ crc64Checksum (marshalHeader { header with crc := 0 }) then
      .error .headerCrcMismatch
    else
      .ok { kind := header.kind
            compression := header.compression
            expectedRecordsCount := header.recordsCount
            hasherBytes := []
            firstRevision := 0
            lastRevision := 0
            lastCount := 0
            rest := if header.compression = FileCompression.zstd
                    then codec.decomp rest else rest }

/-- Model of `Reader.Read` (reader.go lines 106-149): read one framed
record, verify its CRC against its crc-zero serialization, feed that
serialization to the aggregate hasher, update first/last revision and the
count. -/
def readerRead (r : ReaderState) : Except ReaderError (Record × ReaderState) :=
  match parseDelim parseRecordFrom r.rest with
  | Option.none => .error .recordReadFailed
  | some (record, rest2) =>
    let recordData := marshalRecord { record with crc := 0 }
    if record.crc ≠ crc64Checksum recordData then .error .recordCrcMismatch
    else
      .ok (record,
        { r with
          hasherBytes := r.hasherBytes ++ recordData
          firstRevision := if r.firstRevision = 0 then record.revision else r.firstRevision
          lastCount := r.lastCount + 1
          lastRevision := record.revision
          rest := rest2 })

/-- The `ReadResults` returned by a successful `Reader.Close`. -/
structure ReadResults where
  kind : FileKind
  recordsCount : Int
  firstRevision : Int
  lastRevision : Int
  deriving DecidableEq, Repr

/-- Model of `Reader.Close` (reader.go lines 151-205): check the count
against the header, read and CRC-check the footer, compare the aggregate
records CRC and the observed first/last revisions with the footer. -/
def readerClose (r : ReaderState) : Except ReaderError ReadResults :=
  if r.lastCount ≠ r.expectedRecordsCount then .error .countMismatch
  else
    match parseDelim parseFooterFrom r.rest with
    | Option.none => .error .footerReadFailed
    | some (footer, _) =>
      if footer.crc ≠ crc64Checksum (marshalFooter { footer with crc := 0 }) then
        .error .footerCrcMismatch
      else if footer.recordsCrc ≠ crc64Checksum r.hasherBytes then
        .error .recordsCrcMismatch
      else if r.firstRevision ≠ footer.firstRevision then .error .firstRevisionMismatch
      else if r.lastRevision ≠ footer.lastRevision then .error .lastRevisionMismatch
      else
        .ok { kind := r.kind
              recordsCount := r.lastCount
              firstRevision := r.firstRevision
              lastRevision := r.lastRevision }

/-- Write a whole sequence of records, returning the stamped records. -/
def writeAll (w : WriterState) : List Record → WriterState × List Record
  | [] => (w, [])
  | r :: rest =>
    let (w2, s) := writerWrite w r
    let (wf, ss) := writeAll w2 rest
    (wf, s :: ss)

/-- Call `Reader.Read` the given number of times. -/
def readAll (r : ReaderState) : Nat → Except ReaderError (List Record × ReaderState)
  | 0 => .ok ([], r)
  | n + 1 =>
    match readerRead r with
    | .error e => .error e
    | .ok (rec, r2) =>
      match readAll r2 n with
      | .error e => .error e
      | .ok (recs, rf) => .ok (rec :: recs, rf)

/-- Spec-side commit policy for C1, following the specification's words
(the sentinel table in §4.2 of the spec, read in order): `CreateKeyExists`
when the draft is a create and the latest record for its key exists live;
`DeleteKeyNotFound` when the draft is a delete and the latest record is
absent or already deleted; `CompareRevisionFailed` when `prev_revision > 0`
and the live latest revision differs, or `prev_revision = 0` and a live
record exists; no error otherwise. -/
def specCommitError (idx : List Record) (record : Record) : Option InsertError :=
  if record.created &&
      (match latestForKey idx record.key with
       | some l => !l.deleted
       | Option.none => false) then some .createKeyExists
  else if record.deleted &&
      (match latestForKey idx record.key with
       | some l => l.deleted
       | Option.none => true) then some .deleteKeyNotFound
  else if (record.prevRevision > 0 && insLiveRevision idx record ≠ record.prevRevision) ||
      (record.prevRevision = 0 && (liveLatestForKey idx record.key).isSome) then
    some .compareRevisionFailed
  else Option.none

/-- Indices reachable by the leader protocol: an empty index, extended one
commit at a time by inserting a parsed draft stamped with
`revision = MAX(revision) + 1`. -/
inductive LeaderReachable : List Record → Prop
  | nil : LeaderReachable []
  | step (idx : List Record) (req : TxnRequest) (lid : List Nat) (now : Int)
      (rec0 : Record) (idx2 : List Record) (row : Record) :
      LeaderReachable idx →
      parseTxnRequest req = .ok rec0 →
      insertRecord idx { rec0 with leaderId := lid, revision := maxRevision idx + 1 } now =
        .ok (idx2, row) →
      LeaderReachable idx2

/-- Concrete create draft used to witness the column formulas. -/
def draftC2 : Record :=
  { Record.zero with
    revision := 1
    key := [107]
    value := [118, 49]
    created := true
    leaderId := [108] }

/-- The row `insertRecord` produces for `draftC2` on the empty index. -/
def rowC2 : Record :=
  { draftC2 with
    createRevision := 1
    version := 1
    createdAt := some 0 }

/-- Transaction creating key k (107) with value v1 (the spec's scenario 1,
first step). -/
def txnCreateC5 : TxnRequest :=
  { compare := [{ target := .mod, result := .equal, key := [107], modRevision := 0 }]
    success := [.put { key := [107], value := [118, 49] }] }

/-- Transaction updating key k from revision 1 to value v2 (scenario 1,
second step). -/
def txnUpdateC5 : TxnRequest :=
  { compare := [{ target := .mod, result := .equal, key := [107], modRevision := 1 }]
    success := [.put { key := [107], value := [118, 50] }]
    failure := [.range { key := [107] }] }

/-- The conflicting create of value v3 against the existing key (scenario 2). -/
def txnConflictC5 : TxnRequest :=
  { compare := [{ target := .mod, result := .equal, key := [107], modRevision := 0 }]
    success := [.put { key := [107], value := [118, 51] }] }

/-- Server state after creating k=v1 and updating it to v2, starting from
an empty store. -/
def stAfterUpdateC5 : ServerState :=
  (clientTxn (clientTxn (initServer [] []) txnCreateC5 [108] 0 true).1
    txnUpdateC5 [108] 1 true).1

/-- Concatenated framed serializations of the stamped records: the body
the writer accumulates. -/
def bodyFrames : List Record → List Nat
  | [] => []
  | r :: rest => frameOf (marshalRecord (stampRecord r)) ++ bodyFrames rest

/-- Concatenated crc-zero serializations of the records: the bytes both
sides feed their aggregate CRC hasher. -/
def recsData : List Record → List Nat
  | [] => []
  | r :: rest => marshalRecord { r with crc := 0 } ++ recsData rest

/-- The stamped header the writer emits for the given parameters. -/
def headerFor (kind : FileKind) (comp : FileCompression) (n : Int) (lid : List Nat)
    (createdAt : Option Int) : FileHeader :=
  let h0 : FileHeader :=
    { schemaVersion := 0, kind := kind, compression := comp, recordsCount := n
      leaderId := lid, createdAt := createdAt, crc := 0 }
  { h0 with crc := crc64Checksum (marshalHeader h0) }

/-- The stamped footer the writer emits after the given records. -/
def footerFor (recs : List Record) : FileFooter :=
  let f0 : FileFooter :=
    { recordsCrc := crc64Checksum (recsData recs)
      firstRevision := recs.foldl (fun f rec => if f = 0 then rec.revision else f) 0
      lastRevision := recs.foldl (fun _ rec => rec.revision) 0
      crc := 0 }
  { f0 with crc := crc64Checksum (marshalFooter f0) }

/-- The pre-compression body of a file holding the given records: the
record frames followed by the footer frame. -/
def fileBody (recs : List Record) : List Nat :=
  bodyFrames recs ++ frameOf (marshalFooter (footerFor recs))

/-- The complete byte stream a writer produces for the given records. -/
def fileBytesFor (codec : ZstdCodec) (kind : FileKind) (comp : FileCompression)
    (recs : List Record) (lid : List Nat) (createdAt : Option Int) : List Nat :=
  frameOf (marshalHeader (headerFor kind comp (recs.length : Int) lid createdAt)) ++
    (if comp = FileCompression.zstd then codec.comp (fileBody recs) else fileBody recs)

/-- The reader state right after `NewReader` consumed the header of such a
file. -/
def rsInit (kind : FileKind) (comp : FileCompression) (recs : List Record) : ReaderState :=
  { kind := kind, compression := comp, expectedRecordsCount := (recs.length : Int)
    hasherBytes := [], firstRevision := 0, lastRevision := 0, lastCount := 0
    rest := fileBody recs }

/-- The reader state after all records of such a file have been read. -/
def rsFinal (kind : FileKind) (comp : FileCompression) (recs : List Record) : ReaderState :=
  { kind := kind, compression := comp, expectedRecordsCount := (recs.length : Int)
    hasherBytes := recsData recs
    firstRevision := recs.foldl (fun f rec => if f = 0 then rec.revision else f) 0
    lastRevision := recs.foldl (fun _ rec => rec.revision) 0
    lastCount := (recs.length : Int)
    rest := frameOf (marshalFooter (footerFor recs)) }

/-- First sample record for the round-trip witness. -/
def recR1 : Record :=
  { Record.zero with revision := 5, key := [97], value := [120], leaderId := [108] }

/-- Second sample record for the round-trip witness. -/
def recR2 : Record :=
  { Record.zero with revision := 6, key := [98], value := [121], leaderId := [108] }

/-- A stream whose header declares ONE record but whose body carries two
valid record frames and a footer consistent with both. -/
def overrunStream : List Nat :=
  frameOf (marshalHeader
    (headerFor FileKind.chunk FileCompression.none 1 [108] (some 0))) ++
    fileBody [recR1, recR2]

/-- Reader state after opening `overrunStream`. -/
def rsOverrun0 : ReaderState :=
  { kind := FileKind.chunk, compression := FileCompression.none
    expectedRecordsCount := 1, hasherBytes := [], firstRevision := 0
    lastRevision := 0, lastCount := 0, rest := fileBody [recR1, recR2] }

/-- Reader state after reading both records of `overrunStream`. -/
def rsOverrun2 : ReaderState :=
  { rsOverrun0 with
    hasherBytes := recsData [recR1, recR2]
    firstRevision := 5
    lastRevision := 6
    lastCount := 2
    rest := frameOf (marshalFooter (footerFor [recR1, recR2])) }

/-! ## Theorems -/

@[simp] theorem decodeVarint_encodeVarint (n : Nat) (rest : List Nat) :
    decodeVarint (encodeVarint n ++ rest) = some (n, rest) := by
  induction n using Nat.strong_induction_on with
  | _ n ih =>
    rw [encodeVarint]
    by_cases h : n < 128
    · simp [h, decodeVarint]
    · have hlt : n / 128 < n := Nat.div_lt_self (by omega) (by omega)
      simp only [h, dite_false, List.cons_append, decodeVarint]
      have hb : ¬ (n % 128 + 128 < 128) := by omega
      simp only [hb, if_false, ih _ hlt]
      have hmod : n / 128 * 128 + (n % 128 + 128 - 128) = n := by
        have := Nat.div_add_mod n 128
        omega
      rw [Nat.add_sub_cancel] at hmod
      simp [hmod]

@[simp] theorem unzigzag_zigzag (i : Int) : unzigzag (zigzag i) = i := by
  unfold zigzag unzigzag
  by_cases h : 0 ≤ i
  · simp only [h, if_true]
    have h2 : (2 * i.toNat) % 2 = 0 := by omega
    simp only [h2, if_true]
    have : (2 * i.toNat) / 2 = i.toNat := by omega
    rw [this]
    exact Int.toNat_of_nonneg h
  · simp only [h, if_false]
    have hneg : 0 < -i := by omega
    have htn : (-i).toNat = -i := Int.toNat_of_nonneg (by omega)
    have hpos : 1 ≤ (-i).toNat := by omega
    have h2 : (2 * (-i).toNat - 1) % 2 = 1 := by omega
    simp only [h2, if_false]
    have : (2 * (-i).toNat - 1 + 1) / 2 = (-i).toNat := by omega
    rw [this, htn]
    omega

@[simp] theorem decInt_encInt (i : Int) (rest : List Nat) :
    decInt (encInt i ++ rest) = some (i, rest) := by
  simp [decInt, encInt]

@[simp] theorem decNat_encNat (n : Nat) (rest : List Nat) :
    decNat (encNat n ++ rest) = some (n, rest) := by
  simp [decNat, encNat]

@[simp] theorem decLen_encLen (bs rest : List Nat) :
    decLen (encLen bs ++ rest) = some (bs, rest) := by
  simp only [encLen, List.append_assoc, decLen, decodeVarint_encodeVarint]
  have h : bs.length ≤ (bs ++ rest).length := by simp
  simp [h, List.take_left, List.drop_left]

@[simp] theorem decBool_encBool (b : Bool) (rest : List Nat) :
    decBool (encBool b ++ rest) = some (b, rest) := by
  cases b <;> simp [encBool, decBool]

@[simp] theorem decOptInt_encOptInt (t : Option Int) (rest : List Nat) :
    decOptInt (encOptInt t ++ rest) = some (t, rest) := by
  cases t <;> simp [encOptInt, decOptInt]

@[simp] theorem decKind_encKind (k : FileKind) (rest : List Nat) :
    decKind (encKind k ++ rest) = some (k, rest) := by
  cases k <;> simp [encKind, decKind]

@[simp] theorem decCompression_encCompression (c : FileCompression) (rest : List Nat) :
    decCompression (encCompression c ++ rest) = some (c, rest) := by
  cases c <;> simp [encCompression, decCompression]

@[simp] theorem decRec1_encRec1 (r : Record) (rest : List Nat) :
    decRec1 (encRec1 r ++ rest) = some ((r.crc, r.revision, r.key, r.created), rest) := by
  simp only [decRec1, encRec1, List.append_assoc, decNat_encNat, decInt_encInt,
    decLen_encLen, decBool_encBool, Option.bind_eq_bind, Option.some_bind, Option.pure_def]

@[simp] theorem decRec2_encRec2 (r : Record) (rest : List Nat) :
    decRec2 (encRec2 r ++ rest) =
      some ((r.deleted, r.createRevision, r.prevRevision, r.version), rest) := by
  simp only [decRec2, encRec2, List.append_assoc, decInt_encInt, decBool_encBool,
    Option.bind_eq_bind, Option.some_bind, Option.pure_def]

@[simp] theorem decRec3_encRec3 (r : Record) (rest : List Nat) :
    decRec3 (encRec3 r ++ rest) = some ((r.lease, r.dek, r.value, r.createdAt), rest) := by
  simp only [decRec3, encRec3, List.append_assoc, decInt_encInt, decLen_encLen,
    decOptInt_encOptInt, Option.bind_eq_bind, Option.some_bind, Option.pure_def]

@[simp] theorem decRec4_encRec4 (r : Record) (rest : List Nat) :
    decRec4 (encRec4 r ++ rest) =
      some ((r.compactedAt, r.leaderId, r.replicatedAt), rest) := by
  simp only [decRec4, encRec4, List.append_assoc, decLen_encLen, decOptInt_encOptInt,
    Option.bind_eq_bind, Option.some_bind, Option.pure_def]

@[simp] theorem parseRecordFrom_marshalRecord (r : Record) (rest : List Nat) :
    parseRecordFrom (marshalRecord r ++ rest) = some (r, rest) := by
  simp only [parseRecordFrom, marshalRecord, List.append_assoc, decRec1_encRec1,
    decRec2_encRec2, decRec3_encRec3, decRec4_encRec4,
    Option.bind_eq_bind, Option.some_bind, Option.pure_def]

@[simp] theorem parseHeaderFrom_marshalHeader (h : FileHeader) (rest : List Nat) :
    parseHeaderFrom (marshalHeader h ++ rest) = some (h, rest) := by
  simp only [parseHeaderFrom, marshalHeader, List.append_assoc, decNat_encNat,
    decInt_encInt, decLen_encLen, decOptInt_encOptInt,
    decKind_encKind, decCompression_encCompression,
    Option.bind_eq_bind, Option.some_bind, Option.pure_def]

@[simp] theorem parseFooterFrom_marshalFooter (f : FileFooter) (rest : List Nat) :
    parseFooterFrom (marshalFooter f ++ rest) = some (f, rest) := by
  simp only [parseFooterFrom, marshalFooter, List.append_assoc, decNat_encNat,
    decInt_encInt, Option.bind_eq_bind, Option.some_bind, Option.pure_def]

theorem parseDelim_frameOf {α : Type} (parse : List Nat → Option (α × List Nat))
    (msg : List Nat) (a : α) (rest : List Nat)
    (h : ∀ tail, parse (msg ++ tail) = some (a, tail)) :
    parseDelim parse (frameOf msg ++ rest) = some (a, rest) := by
  have hmsg : parse msg = some (a, []) := by
    have := h []
    simpa using this
  simp [parseDelim, frameOf, hmsg]

/-! ## Claims -/

/-- C9: `shouldCreateSnapshot` returns true iff `currentRevision >
lastRevision` and at least one enabled threshold is met — records
(`currentRevision - lastRevision ≥ thresholdRecords` when positive), size
(`cumulativeSize ≥ thresholdSizeMB * 2^20` when positive; 1048576 = 2^20),
or age (when positive: zero `lastTime` fires immediately, otherwise
`now - lastTime ≥ thresholdAgeMinutes` minutes) — and returns false for
every request with `currentRevision ≤ lastRevision` regardless of the
thresholds.  The cumulative size is a sum of protobuf sizes, hence
nonnegative. -/
theorem shouldCreateSnapshot_fires_iff (cfg : SnapshotConfig)
    (currentRevision currentTime cumulativeSize lastRevision : Int)
    (lastTime : Option Int) (hcum : 0 ≤ cumulativeSize) :
    (shouldCreateSnapshot cfg currentRevision currentTime cumulativeSize
        lastRevision lastTime = true ↔
      currentRevision > lastRevision ∧
        ((cfg.thresholdRecords > 0 ∧
            currentRevision - lastRevision ≥ cfg.thresholdRecords) ∨
         (cfg.thresholdSizeMB > 0 ∧ cumulativeSize ≥ cfg.thresholdSizeMB * 1048576) ∨
         (cfg.thresholdAgeMinutes > 0 ∧
           (lastTime = Option.none ∨
            ∃ lt, lastTime = some lt ∧
              currentTime - lt ≥ cfg.thresholdAgeMinutes * nsPerMinute)))) ∧
    (∀ cur last ct cs llt, cur ≤ last →
      shouldCreateSnapshot cfg cur ct cs last llt = false) := by
  have hdiv : Int.tdiv cumulativeSize (1024 * 1024) = cumulativeSize / 1048576 := by
    match cumulativeSize, hcum with
    | Int.ofNat _, _ => rfl
  constructor
  · cases lastTime with
    | none =>
      unfold shouldCreateSnapshot
      rw [hdiv]
      split_ifs with h1 h2 h3 h4 <;> simp_all <;> omega
    | some lt =>
      unfold shouldCreateSnapshot
      rw [hdiv]
      split_ifs with h1 h2 h3 h4 <;> simp_all <;> omega
  · intro cur last ct cs llt h
    unfold shouldCreateSnapshot
    simp [h]

/-- C6: for a well-formed `TxnRequest` (one MOD/EQUAL compare, one success
op, at most one failure op which is a single-key range, all on the compare
key, no `PrevKv`), `ParseTxnRequest` classifies: create iff
`ModRevision = 0` with a put success; update iff `ModRevision > 0` with a
put success and a failure range; delete iff `ModRevision > 0` with a
delete success and a failure range; every other combination (in
particular `ModRevision = 0` with a delete success, and `ModRevision > 0`
with a put but no failure op) is `ErrUnsupported`. -/
theorem parseTxnRequest_classification (r : TxnRequest) (c : Compare) (s : RequestOp)
    (h1 : r.compare = [c]) (h2 : r.success = [s]) (h3 : r.failure.length ≤ 1)
    (h4 : c.target = CompareTarget.mod) (h5 : c.result = CompareResult.equal)
    (h6 : ∀ p, s.getPut = some p → p.prevKv = false ∧ p.key = c.key)
    (h7 : ∀ d, s.getDeleteRange = some d → d.prevKv = false ∧ d.key = c.key)
    (h8 : ∀ f, r.failure = [f] →
      ∃ fr, f.getRange = some fr ∧ fr.rangeEnd = [] ∧ fr.key = c.key) :
    (∀ p, s = .put p → c.modRevision = 0 →
      parseTxnRequest r = .ok { Record.zero with
        key := p.key, value := p.value, lease := p.lease, created := true }) ∧
    (∀ p, s = .put p → c.modRevision > 0 → r.failure.length = 1 →
      parseTxnRequest r = .ok { Record.zero with
        key := p.key, value := p.value, lease := p.lease,
        prevRevision := c.modRevision }) ∧
    (∀ d, s = .deleteRange d → c.modRevision > 0 → r.failure.length = 1 →
      parseTxnRequest r = .ok { Record.zero with
        key := d.key, deleted := true, prevRevision := c.modRevision }) ∧
    (parseTxnRequest r = .error .unsupported ↔
      ¬((c.modRevision = 0 ∧ ∃ p, s = .put p) ∨
        (c.modRevision > 0 ∧ r.failure.length = 1 ∧ ∃ p, s = .put p) ∨
        (c.modRevision > 0 ∧ r.failure.length = 1 ∧ ∃ d, s = .deleteRange d))) := by
  obtain ⟨rc, rs, rf⟩ := r
  simp only [TxnRequest.mk.injEq] at h1 h2
  simp only at h3 h8
  subst h1 h2
  have hred : parseTxnRequest ⟨[c], [s], rf⟩ =
      parseTxnRequest.classify c.modRevision s.getPut s.getDeleteRange
        (match rf with
         | [f] => f.getRange
         | _ => Option.none) := by
    rcases rf with _ | ⟨f, _ | ⟨f2, frest⟩⟩
    · cases s with
      | put p =>
        obtain ⟨hpk, hke⟩ := h6 p rfl
        simp [parseTxnRequest, h4, h5, RequestOp.getPut, RequestOp.getDeleteRange, hpk, hke]
      | deleteRange d =>
        obtain ⟨hpk, hke⟩ := h7 d rfl
        simp [parseTxnRequest, h4, h5, RequestOp.getPut, RequestOp.getDeleteRange, hpk, hke]
      | range rr =>
        simp [parseTxnRequest, h4, h5, RequestOp.getPut, RequestOp.getDeleteRange]
    · obtain ⟨fr, hfr, hre, hfk⟩ := h8 f rfl
      cases s with
      | put p =>
        obtain ⟨hpk, hke⟩ := h6 p rfl
        simp [parseTxnRequest, h4, h5, RequestOp.getPut, RequestOp.getDeleteRange,
          hpk, hke, hfr, hre, hfk]
      | deleteRange d =>
        obtain ⟨hpk, hke⟩ := h7 d rfl
        simp [parseTxnRequest, h4, h5, RequestOp.getPut, RequestOp.getDeleteRange,
          hpk, hke, hfr, hre, hfk]
      | range rr =>
        simp [parseTxnRequest, h4, h5, RequestOp.getPut, RequestOp.getDeleteRange,
          hfr, hre, hfk]
    · exfalso
      simp at h3
  refine ⟨?_, ?_, ?_, ?_⟩
  · intro p hs hm
    subst hs
    rw [hred]
    simp [parseTxnRequest.classify, RequestOp.getPut, RequestOp.getDeleteRange, hm, Record.zero]
  · intro p hs hm hf
    subst hs
    rw [hred]
    have hm0 : ¬ c.modRevision = 0 := by omega
    rcases rf with _ | ⟨f, _ | ⟨f2, frest⟩⟩
    · simp at hf
    · obtain ⟨fr, hfr, _, _⟩ := h8 f rfl
      simp [parseTxnRequest.classify, RequestOp.getPut, RequestOp.getDeleteRange,
        hfr, hm, hm0, Record.zero]
    · simp at hf
  · intro d hs hm hf
    subst hs
    rw [hred]
    have hm0 : ¬ c.modRevision = 0 := by omega
    rcases rf with _ | ⟨f, _ | ⟨f2, frest⟩⟩
    · simp at hf
    · obtain ⟨fr, hfr, _, _⟩ := h8 f rfl
      simp [parseTxnRequest.classify, RequestOp.getPut, RequestOp.getDeleteRange, hfr, hm,
        Record.zero, hm0]
    · simp at hf
  · rw [hred]
    rcases rf with _ | ⟨f, _ | ⟨f2, frest⟩⟩
    · cases s <;>
        simp [parseTxnRequest.classify, RequestOp.getPut, RequestOp.getDeleteRange]
    · obtain ⟨fr, hfr, _, _⟩ := h8 f rfl
      cases s <;>
        simp only [parseTxnRequest.classify, RequestOp.getPut, RequestOp.getDeleteRange, hfr,
          Option.isSome_some, List.length_singleton] <;>
        (try split_ifs) <;> simp_all
    · exfalso
      simp at h3

/-- Witness for C9: with a records threshold of 3 and a last snapshot at
revision 2, a request at revision 10 fires. -/
theorem shouldCreateSnapshot_fires_iff_witness :
    shouldCreateSnapshot ⟨3, 0, 0⟩ 10 0 5 2 Option.none = true :=
  (shouldCreateSnapshot_fires_iff ⟨3, 0, 0⟩ 10 0 5 2 Option.none (by decide)).1.mpr
    ⟨by decide, Or.inl ⟨by decide, by decide⟩⟩

/-- Witness for C6: a well-formed delete transaction (`mod = 2`, delete
success, failure range) is classified as a delete draft. -/
theorem parseTxnRequest_classification_witness :
    parseTxnRequest
      { compare := [{ target := .mod, result := .equal, key := [107], modRevision := 2 }]
        success := [.deleteRange { key := [107] }]
        failure := [.range { key := [107] }] } =
      .ok { Record.zero with key := [107], deleted := true, prevRevision := 2 } :=
  (parseTxnRequest_classification
      { compare := [{ target := .mod, result := .equal, key := [107], modRevision := 2 }]
        success := [.deleteRange { key := [107] }]
        failure := [.range { key := [107] }] }
      { target := .mod, result := .equal, key := [107], modRevision := 2 }
      (.deleteRange { key := [107] })
      rfl rfl (by decide) rfl rfl
      (by intro p hp; simp [RequestOp.getPut] at hp)
      (by intro d hd; cases hd; exact ⟨rfl, rfl⟩)
      (by intro f hf; cases hf; exact ⟨_, rfl, rfl, rfl⟩)).2.2.1
    { key := [107] } rfl (by decide) rfl

/-- Counterexample for C10: the key-range classification is NOT total.  On
an empty request key, `commonapi.Range` evaluates
`keyCopy[:len(keyCopy)-1]` on an empty slice and panics (modelled by
`rangePrefixEnd [] = Option.none` and the `panicSliceBounds` error), and
`isInRange` panics when the record key is non-empty but the range key is
empty. -/
theorem rangeClassification_empty_key_panics :
    rangePrefixEnd [] = Option.none ∧
    rangeQuery [] { key := [] } = Except.error RangeError.panicSliceBounds ∧
    isInRange [107] [] [] = Option.none :=
  ⟨rfl, rfl, rfl⟩

/-- C10 as amended: the classification returns normally exactly where the
prefix-end computation is reached on a non-empty operand — `Range` never
hits the slice-bounds panic when the request key is non-empty, and
`isInRange` never panics when the record key is empty or the range key is
non-empty. -/
theorem rangeClassification_total_on_nonempty :
    (∀ key : List Nat, key ≠ [] → (rangePrefixEnd key).isSome = true) ∧
    (∀ (idx : List Record) (r : RangeRequest), r.key ≠ [] →
      rangeQuery idx r ≠ Except.error RangeError.panicSliceBounds) ∧
    (∀ k rk re : List Nat, k = [] ∨ rk ≠ [] → (isInRange k rk re).isSome = true) := by
  refine ⟨?_, ?_, ?_⟩
  · intro key hk
    cases key with
    | nil => exact absurd rfl hk
    | cons b bs => simp [rangePrefixEnd]
  · intro idx r hk
    obtain ⟨b, bs, hbs⟩ : ∃ b bs, r.key = b :: bs := by
      cases hr : r.key with
      | nil => exact absurd hr hk
      | cons b bs => exact ⟨b, bs, rfl⟩
    have hrun : ∀ w, rangeQueryRun idx r w ≠ Except.error RangeError.panicSliceBounds := by
      intro w
      unfold rangeQueryRun
      rcases hfind : findRecordsBy idx w r.revision r.limit
        (if r.sortOrder = sortOrderDescend then .desc else .asc) with ⟨rows, tc, mr⟩
      clear hfind
      split_ifs with h1
      · simp [h1]
      · simp only [if_neg h1]
        split <;> simp
    have hcheck : ∀ e, rangeOptionCheck r = some e → e ≠ RangeError.panicSliceBounds := by
      intro e he
      unfold rangeOptionCheck at he
      split_ifs at he <;> simp only [Option.some.injEq] at he <;> simp [← he]
    unfold rangeQuery
    rcases hoc : rangeOptionCheck r with _ | e
    · rw [hbs]
      simp only [rangePrefixEnd]
      exact hrun _
    · simpa using hcheck e hoc
  · intro k rk re h
    have hcond : (k.length > 0 && rk.length = 0) = false := by
      rcases h with h | h
      · subst h; simp
      · cases rk with
        | nil => exact absurd rfl h
        | cons c cs => simp
    unfold isInRange
    rw [hcond]
    simp

/-- Witness for the amended C10 on concrete inputs. -/
theorem rangeClassification_total_on_nonempty_witness :
    (rangePrefixEnd [107]).isSome = true ∧
    rangeQuery [] { key := [107] } ≠ Except.error RangeError.panicSliceBounds ∧
    (isInRange [] [] [42]).isSome = true :=
  ⟨rangeClassification_total_on_nonempty.1 [107] (by decide),
   rangeClassification_total_on_nonempty.2.1 [] { key := [107] } (by decide),
   rangeClassification_total_on_nonempty.2.2 [] [] [42] (Or.inl rfl)⟩

/-! ## Structure of a successful insert -/

theorem insCreatedCol_some (idx : List Record) (record : Record) (v : Bool)
    (h : insCreatedCol idx record = some v) : v = record.created := by
  unfold insCreatedCol at h
  split_ifs at h with hc
  · rcases hl : latestForKey idx record.key with _ | l <;> rw [hl] at h
    · simp_all
    · by_cases hd : l.deleted = false <;> simp_all
  · simp_all

theorem insDeletedCol_some (idx : List Record) (record : Record) (v : Bool)
    (h : insDeletedCol idx record = some v) : v = record.deleted := by
  unfold insDeletedCol at h
  split_ifs at h with hc
  · rcases hl : latestForKey idx record.key with _ | l <;> rw [hl] at h
    · simp_all
    · by_cases hd : l.deleted = false <;> simp_all
  · simp_all

theorem insPrevRevisionCol_some (idx : List Record) (record : Record) (v : Int)
    (hnn : 0 ≤ record.prevRevision)
    (h : insPrevRevisionCol idx record = some v) : v = record.prevRevision := by
  unfold insPrevRevisionCol at h
  split_ifs at h <;> simp_all <;> omega

/-- A successful `InsertRecord` appends exactly one row, equal to the
draft except for the computed `create_revision` and `version` columns and
the stamped `created_at`. -/
theorem insertRecord_ok_spec (idx : List Record) (record : Record) (now : Int)
    (idx' : List Record) (row : Record)
    (h : insertRecord idx record now = .ok (idx', row)) :
    validDraft record = true ∧
    row = { record with
            createRevision := insCreateRevisionCol idx record
            version := insVersionCol idx record
            createdAt := some now } ∧
    idx' = idx ++ [row] := by
  unfold insertRecord at h
  by_cases hval : (!validDraft record) = true
  · rw [if_pos hval] at h
    exact absurd h (by simp)
  rw [if_neg hval] at h
  rcases hcc : insCreatedCol idx record with _ | createdV <;> rw [hcc] at h
  · exact absurd h (by simp)
  rcases hdc : insDeletedCol idx record with _ | deletedV <;> rw [hdc] at h
  · exact absurd h (by simp)
  rcases hpc : insPrevRevisionCol idx record with _ | prevV <;> rw [hpc] at h
  · exact absurd h (by simp)
  simp only [] at h
  split_ifs at h with h1 h2
  all_goals try exact Except.noConfusion h
  · simp only [Except.ok.injEq, Prod.mk.injEq] at h
    obtain ⟨hidx, hrow⟩ := h
    have hvd : validDraft record = true := by simpa using hval
    have hnn : 0 ≤ record.prevRevision := by
      unfold validDraft at hvd
      simp only [Bool.not_eq_true'] at hvd
      simp only [Bool.or_eq_false_iff, decide_eq_false_iff_not] at hvd
      omega
    have e1 := insCreatedCol_some idx record createdV hcc
    have e2 := insDeletedCol_some idx record deletedV hdc
    have e3 := insPrevRevisionCol_some idx record prevV hnn hpc
    subst e1 e2 e3
    refine ⟨hvd, ?_, ?_⟩
    · rw [← hrow]
    · rw [← hidx, ← hrow]

/-- Case analysis of `LeaderTxn`: every run either fails leaving the state
unchanged, answers a compare failure with the failure range leaving the
state unchanged, or commits: the insert succeeded, S3 accepted the chunk,
the index gains the inserted row, the chunk list gains it, and the
counter advances by one. -/
theorem leaderTxn_cases (st : ServerState) (r : TxnRequest) (lid : List Nat)
    (now : Int) (s3ok : Bool) :
    (∃ e, leaderTxn st r lid now s3ok = (st, .error e)) ∨
    (∃ rr, leaderTxn st r lid now s3ok =
      (st, .ok (Option.none, buildTxnResponse Option.none (some rr)))) ∨
    (∃ rec0 idx2 inserted, parseTxnRequest r = .ok rec0 ∧
      insertRecord st.idx { rec0 with leaderId := lid, revision := st.nextRevisionID } now =
        .ok (idx2, inserted) ∧ s3ok = true ∧
      leaderTxn st r lid now s3ok =
        ({ idx := idx2
           nextRevisionID := st.nextRevisionID + 1
           s3Chunks := st.s3Chunks ++ [inserted] },
         .ok (some inserted, buildTxnResponse (some inserted) Option.none))) := by
  unfold leaderTxn
  rcases hp : parseTxnRequest r with e | rec0
  · exact Or.inl ⟨.parse e, rfl⟩
  · dsimp only
    rcases hins : insertRecord st.idx
        { rec0 with leaderId := lid, revision := st.nextRevisionID } now
      with e | ⟨idx2, inserted⟩
    · dsimp only
      split_ifs
      · rcases hrg : rangeQuery st.idx { key := rec0.key } with e2 | rr
        · exact Or.inl ⟨.rangeFailed e2, rfl⟩
        · exact Or.inr (Or.inl ⟨rr, rfl⟩)
      · exact Or.inl ⟨.insert e, rfl⟩
    · dsimp only
      rcases s3ok with _ | _
      · exact Or.inl ⟨.s3UploadFailed, rfl⟩
      · exact Or.inr (Or.inr ⟨rec0, idx2, inserted, rfl, hins, rfl, rfl⟩)

/-- A successful `LeaderTxn` commit stamps the record with the current
counter value, appends it to the index, uploads it as a chunk, and bumps
the counter by one. -/
theorem leaderTxn_ok_spec (st : ServerState) (r : TxnRequest) (lid : List Nat)
    (now : Int) (s3ok : Bool) (rec : Record) (resp : TxnResponse)
    (h : (leaderTxn st r lid now s3ok).2 = .ok (some rec, resp)) :
    rec.revision = st.nextRevisionID ∧
    (leaderTxn st r lid now s3ok).1.nextRevisionID = st.nextRevisionID + 1 ∧
    (leaderTxn st r lid now s3ok).1.idx = st.idx ++ [rec] ∧
    (leaderTxn st r lid now s3ok).1.s3Chunks = st.s3Chunks ++ [rec] := by
  rcases leaderTxn_cases st r lid now s3ok with ⟨e, heq⟩ | ⟨rr, heq⟩ |
    ⟨rec0, idx2, inserted, hp, hins, _, heq⟩
  · rw [heq] at h
    exact absurd h (by simp)
  · rw [heq] at h
    exact absurd h (by simp)
  · rw [heq] at h
    simp only [Except.ok.injEq, Prod.mk.injEq, Option.some.injEq] at h
    obtain ⟨hrec, _⟩ := h
    subst hrec
    obtain ⟨_, hrow, hidx⟩ := insertRecord_ok_spec _ _ _ _ _ hins
    rw [heq]
    refine ⟨by rw [hrow], rfl, by simpa using hidx, rfl⟩

/-- When `LeaderTxn` does not commit (parse error, sentinel or other
insert error, compare failure with its failure-range response, or S3
upload failure) the server state — index, counter and S3 contents — is
unchanged. -/
theorem leaderTxn_noCommit_spec (st : ServerState) (r : TxnRequest) (lid : List Nat)
    (now : Int) (s3ok : Bool)
    (h : ∀ rec resp, (leaderTxn st r lid now s3ok).2 ≠ .ok (some rec, resp)) :
    (leaderTxn st r lid now s3ok).1 = st := by
  rcases leaderTxn_cases st r lid now s3ok with ⟨e, heq⟩ | ⟨rr, heq⟩ |
    ⟨rec0, idx2, inserted, hp, hins, _, heq⟩
  · rw [heq]
  · rw [heq]
  · exact absurd (by rw [heq])
      (h inserted (buildTxnResponse (some inserted) Option.none))

/-- C3: the next-revision counter is seeded at startup with
`LatestRevision + 1`; a successful commit stamps the record with the
counter and advances it by exactly one, only at commit; any
non-committing outcome leaves the state (counter included) unchanged;
consequently the i-th record committed from a state carries revision
`nextRevisionID + i`, so consecutive commits get consecutive revisions. -/
theorem revisionCounter_discipline :
    (∀ (idx chunks : List Record),
      (initServer idx chunks).nextRevisionID = maxRevision idx + 1) ∧
    (∀ st r lid now s3ok rec resp,
      (leaderTxn st r lid now s3ok).2 = .ok (some rec, resp) →
      rec.revision = st.nextRevisionID ∧
      (leaderTxn st r lid now s3ok).1.nextRevisionID = st.nextRevisionID + 1) ∧
    (∀ st r lid now s3ok,
      (∀ rec resp, (leaderTxn st r lid now s3ok).2 ≠ .ok (some rec, resp)) →
      (leaderTxn st r lid now s3ok).1 = st) ∧
    (∀ st reqs, ((runTxns st reqs).2).map Record.revision =
      (List.range ((runTxns st reqs).2).length).map
        (fun i : Nat => st.nextRevisionID + (i : Int))) := by
  refine ⟨fun idx chunks => rfl, ?_, leaderTxn_noCommit_spec, ?_⟩
  · intro st r lid now s3ok rec resp h
    obtain ⟨h1, h2, _, _⟩ := leaderTxn_ok_spec st r lid now s3ok rec resp h
    exact ⟨h1, h2⟩
  · intro st reqs
    induction reqs generalizing st with
    | nil => simp [runTxns]
    | cons q rest ih =>
      obtain ⟨r, lid, now, s3ok⟩ := q
      simp only [runTxns]
      rcases hrun : (leaderTxn st r lid now s3ok).2 with e | ⟨orec, resp⟩
      · have hst : (leaderTxn st r lid now s3ok).1 = st :=
          leaderTxn_noCommit_spec st r lid now s3ok (by simp [hrun])
        simpa [hst] using ih (leaderTxn st r lid now s3ok).1
      · rcases orec with _ | rec
        · have hst : (leaderTxn st r lid now s3ok).1 = st :=
            leaderTxn_noCommit_spec st r lid now s3ok (by simp [hrun])
          simpa [hst] using ih (leaderTxn st r lid now s3ok).1
        · obtain ⟨h1, h2⟩ := leaderTxn_ok_spec st r lid now s3ok rec resp hrun
          have hih := ih (leaderTxn st r lid now s3ok).1
          rw [h2.1] at hih
          simp only [List.cons_append, List.nil_append, List.map_cons, List.length_cons]
          rw [List.range_succ_eq_map, List.map_cons, List.map_map]
          congr 1
          · rw [h1]
            simp
          · rw [hih]
            apply List.map_congr_left
            intro a _
            simp only [Function.comp_apply]
            push_cast
            ring

/-- C4: when the insert fails with `ErrCompareRevisionFailed` and the
request carries exactly one failure op, `LeaderTxn` rolls the transaction
back, runs the single-key range for the compare key, and returns the
unchanged state together with `Succeeded = false` and that single
`ResponseRange` (its header revision as the response header revision);
nothing is uploaded to S3 and the revision counter does not advance. -/
theorem leaderTxn_compareFailed_runs_failure_range (st : ServerState) (r : TxnRequest)
    (lid : List Nat) (now : Int) (s3ok : Bool) (rec0 : Record) (rr : RangeResponse)
    (hp : parseTxnRequest r = .ok rec0)
    (hins : insertRecord st.idx
      { rec0 with leaderId := lid, revision := st.nextRevisionID } now =
      .error .compareRevisionFailed)
    (hf : r.failure.length = 1)
    (hrg : rangeQuery st.idx { key := rec0.key } = .ok rr) :
    leaderTxn st r lid now s3ok =
      (st, .ok (Option.none,
        { revision := rr.revision, succeeded := false, responses := [.range rr] })) := by
  unfold leaderTxn
  rw [hp]
  dsimp only
  rw [hins]
  dsimp only
  rw [if_pos ⟨rfl, hf⟩, hrg]
  dsimp only
  unfold buildTxnResponse
  rfl

/-- Witness for C4, the spec's scenario 6: with `k = "v1"` preloaded at
revision 1, the transaction `compare mod(k)=999; success put(k,"v2");
failure range(k)` answers `Succeeded = false` with the single range
result holding value `"v1"` at mod revision 1, and the state (index,
counter, chunks) is untouched. -/
theorem leaderTxn_compareFailed_runs_failure_range_witness :
    leaderTxn
      { idx := [{ revision := 1, key := [107], created := true, deleted := false
                  createRevision := 1, prevRevision := 0, version := 1, lease := 0
                  dek := 0, value := [118, 49], createdAt := some 0
                  compactedAt := Option.none, leaderId := [108]
                  replicatedAt := Option.none, crc := 0 }]
        nextRevisionID := 2
        s3Chunks := [] }
      { compare := [{ target := .mod, result := .equal, key := [107], modRevision := 999 }]
        success := [.put { key := [107], value := [118, 50] }]
        failure := [.range { key := [107] }] }
      [108] 0 true =
      ({ idx := [{ revision := 1, key := [107], created := true, deleted := false
                   createRevision := 1, prevRevision := 0, version := 1, lease := 0
                   dek := 0, value := [118, 49], createdAt := some 0
                   compactedAt := Option.none, leaderId := [108]
                   replicatedAt := Option.none, crc := 0 }]
         nextRevisionID := 2
         s3Chunks := [] },
       .ok (Option.none,
        { revision := 1
          succeeded := false
          responses := [.range
            { revision := 1
              kvs := [{ key := [107], createRevision := 1, modRevision := 1
                        version := 1, value := [118, 49], lease := 0 }]
              count := 1
              more := false }] })) :=
  leaderTxn_compareFailed_runs_failure_range _ _ _ _ _
    { Record.zero with key := [107], value := [118, 50], prevRevision := 999 }
    { revision := 1
      kvs := [{ key := [107], createRevision := 1, modRevision := 1
                version := 1, value := [118, 49], lease := 0 }]
      count := 1
      more := false }
    rfl rfl rfl rfl

/-- The fold used by `latestForKey` returns an element of the list. -/
theorem foldl_maxRev_mem (r : Record) (rs : List Record) :
    rs.foldl (fun b c => if b.revision < c.revision then c else b) r ∈ r :: rs := by
  induction rs generalizing r with
  | nil => simp
  | cons c cs ih =>
    simp only [List.foldl]
    by_cases h : r.revision < c.revision
    · rw [if_pos h]
      have h2 := ih c
      simp only [List.mem_cons] at h2 ⊢
      tauto
    · rw [if_neg h]
      have h2 := ih r
      simp only [List.mem_cons] at h2 ⊢
      tauto

/-- The latest row for a key is a row of the table, for that key. -/
theorem latestForKey_mem (idx : List Record) (k : List Nat) (l : Record)
    (h : latestForKey idx k = some l) : l ∈ idx ∧ l.key = k := by
  unfold latestForKey at h
  rcases hf : idx.filter (fun r => r.key = k) with _ | ⟨r, rs⟩ <;> rw [hf] at h
  · exact absurd h (by simp)
  · simp only [Option.some.injEq] at h
    have hmem : l ∈ r :: rs := h ▸ foldl_maxRev_mem r rs
    have : l ∈ idx.filter (fun r => r.key = k) := by rw [hf]; exact hmem
    have h2 := List.mem_filter.mp this
    exact ⟨h2.1, by simpa using h2.2⟩

/-- The live latest row is the latest row, and it is live. -/
theorem liveLatestForKey_some (idx : List Record) (k : List Nat) (l : Record)
    (h : liveLatestForKey idx k = some l) :
    latestForKey idx k = some l ∧ l.deleted = false := by
  unfold liveLatestForKey at h
  rcases hf : latestForKey idx k with _ | m <;> rw [hf] at h
  · exact absurd h (by simp)
  · by_cases hd : m.deleted <;> simp [hd] at h
    · subst h
      exact ⟨rfl, by simpa using hd⟩

/-- The `created` column is NULL exactly when the draft is a create and a
live latest row for the key exists (the spec's `CreateKeyExists` row). -/
theorem insCreatedCol_none_iff (idx : List Record) (record : Record) :
    insCreatedCol idx record = Option.none ↔
      (record.created && (match latestForKey idx record.key with
        | some l => !l.deleted
        | Option.none => false)) = true := by
  unfold insCreatedCol
  rcases hl : latestForKey idx record.key with _ | l
  · cases hc : record.created <;> simp [hc]
  · cases hc : record.created <;> cases hd : l.deleted <;> simp [hc, hd]

/-- The `deleted` column is NULL exactly when the draft is a delete and
the latest row for the key is absent or deleted. -/
theorem insDeletedCol_none_iff (idx : List Record) (record : Record) :
    insDeletedCol idx record = Option.none ↔
      (record.deleted && (match latestForKey idx record.key with
        | some l => l.deleted
        | Option.none => true)) = true := by
  unfold insDeletedCol
  rcases hl : latestForKey idx record.key with _ | l
  · cases hc : record.deleted <;> simp [hc]
  · cases hc : record.deleted <;> cases hd : l.deleted <;> simp [hc, hd]

/-- The `prev_revision` column is NULL exactly when the spec's compare
fails, provided the index stores only positive revisions and the draft
passed validation (`prev_revision ≥ 0`). -/
theorem insPrevRevisionCol_none_iff (idx : List Record) (record : Record)
    (hnn : 0 ≤ record.prevRevision) (hpos : ∀ rec ∈ idx, 0 < rec.revision) :
    insPrevRevisionCol idx record = Option.none ↔
      ((record.prevRevision > 0 && insLiveRevision idx record ≠ record.prevRevision) ||
        (record.prevRevision = 0 && (liveLatestForKey idx record.key).isSome)) = true := by
  have hlive : (liveLatestForKey idx record.key).isSome = true ↔
      insLiveRevision idx record > 0 := by
    unfold insLiveRevision
    rcases hf : liveLatestForKey idx record.key with _ | m
    · simp
    · obtain ⟨hlat, _⟩ := liveLatestForKey_some idx record.key m hf
      obtain ⟨hmem, _⟩ := latestForKey_mem idx record.key m hlat
      simp [hpos m hmem]
  unfold insPrevRevisionCol
  split_ifs with h1 h2 h3
  · simp only [Bool.or_eq_true, Bool.and_eq_true, decide_eq_true_eq]
    constructor
    · intro hcontra
      exact absurd hcontra (by simp)
    · rintro (⟨_, hne⟩ | ⟨hz, _⟩)
      · exact absurd h2.symm hne
      · omega
  · simp only [Bool.or_eq_true, Bool.and_eq_true, decide_eq_true_eq]
    constructor
    · intro _
      exact Or.inl ⟨by omega, fun hc => h2 hc.symm⟩
    · intro _
      trivial
  · simp only [Bool.or_eq_true, Bool.and_eq_true, decide_eq_true_eq, hlive]
    constructor
    · intro _
      exact Or.inr ⟨by omega, h3⟩
    · intro _
      trivial
  · simp only [Bool.or_eq_true, Bool.and_eq_true, decide_eq_true_eq, hlive]
    constructor
    · intro hcontra
      exact absurd hcontra (by simp)
    · rintro (⟨hgt, _⟩ | ⟨_, hp⟩)
      · omega
      · omega

/-- C1: for a draft that passes `InsertRecord`'s validation, against an
index with positive revisions and no primary-key / unique-index collision
for the draft (as the leader protocol guarantees), the insert succeeds —
appending exactly one row — precisely when the spec's commit policy
(`specCommitError`, the sentinel table read in order) reports no
violation, and otherwise inserts nothing and fails with exactly the
sentinel the policy names. -/
theorem insertRecord_matches_commit_policy (idx : List Record) (record : Record)
    (now : Int) (hv : validDraft record = true)
    (hpos : ∀ rec ∈ idx, 0 < rec.revision)
    (hpk : pkViolation idx record = false)
    (huk : ukViolation idx record.key (insCreateRevisionCol idx record)
      record.prevRevision = false) :
    (∀ e, specCommitError idx record = some e →
      insertRecord idx record now = .error e) ∧
    (specCommitError idx record = Option.none →
      ∃ row, insertRecord idx record now = .ok (idx ++ [row], row)) := by
  have hnn : 0 ≤ record.prevRevision := by
    unfold validDraft at hv
    simp only [Bool.not_eq_true'] at hv
    simp only [Bool.or_eq_false_iff, decide_eq_false_iff_not] at hv
    omega
  have hvns : (!validDraft record) = false := by simp [hv]
  constructor
  · intro e he
    unfold specCommitError at he
    unfold insertRecord
    rw [hvns]
    simp only [Bool.false_eq_true, if_false]
    split_ifs at he with g1 g2 g3
    · simp only [Option.some.injEq] at he
      subst he
      rw [(insCreatedCol_none_iff idx record).mpr g1]
    · simp only [Option.some.injEq] at he
      subst he
      rcases hcc : insCreatedCol idx record with _ | cv
      · exact absurd ((insCreatedCol_none_iff idx record).mp hcc) (by simp [g1])
      · rw [(insDeletedCol_none_iff idx record).mpr g2]
    · simp only [Option.some.injEq] at he
      subst he
      rcases hcc : insCreatedCol idx record with _ | cv
      · exact absurd ((insCreatedCol_none_iff idx record).mp hcc) (by simp [g1])
      · rcases hdc : insDeletedCol idx record with _ | dv
        · exact absurd ((insDeletedCol_none_iff idx record).mp hdc) (by simp [g2])
        · rw [(insPrevRevisionCol_none_iff idx record hnn hpos).mpr g3]
  · intro he
    unfold specCommitError at he
    unfold insertRecord
    rw [hvns]
    simp only [Bool.false_eq_true, if_false]
    split_ifs at he with g1 g2 g3
    rcases hcc : insCreatedCol idx record with _ | cv
    · exact absurd ((insCreatedCol_none_iff idx record).mp hcc) (by simp [g1])
    · rcases hdc : insDeletedCol idx record with _ | dv
      · exact absurd ((insDeletedCol_none_iff idx record).mp hdc) (by simp [g2])
      · rcases hpc : insPrevRevisionCol idx record with _ | pv
        · exact absurd ((insPrevRevisionCol_none_iff idx record hnn hpos).mp hpc) g3
        · have hpv : pv = record.prevRevision :=
            insPrevRevisionCol_some idx record pv hnn hpc
          subst hpv
          simp only [hpk, Bool.false_eq_true, if_false, huk]
          exact ⟨_, rfl⟩

/-- Witness for C1: on an empty index a valid create draft commits (no
policy violation), and with the key live a second create fails with
`ErrCreateKeyExists`. -/
theorem insertRecord_matches_commit_policy_witness :
    ∃ row, insertRecord []
      { Record.zero with revision := 1, key := [107], value := [118, 49], created := true, leaderId := [108] }
      0 = .ok ([] ++ [row], row) :=
  (insertRecord_matches_commit_policy []
      { Record.zero with revision := 1, key := [107], value := [118, 49], created := true, leaderId := [108] }
      0 (by decide) (by intro rec hrec; cases hrec) (by decide) (by decide)).2 (by decide)

/-- A successful insert implies all three conditional columns were
non-NULL. -/
theorem insertRecord_ok_cols (idx : List Record) (record : Record) (now : Int)
    (idx2 : List Record) (row : Record)
    (h : insertRecord idx record now = .ok (idx2, row)) :
    (∃ cv, insCreatedCol idx record = some cv) ∧
    (∃ dv, insDeletedCol idx record = some dv) ∧
    (∃ pv, insPrevRevisionCol idx record = some pv) := by
  unfold insertRecord at h
  by_cases hval : (!validDraft record) = true
  · rw [if_pos hval] at h
    exact absurd h (by simp)
  rw [if_neg hval] at h
  rcases hcc : insCreatedCol idx record with _ | cv <;> rw [hcc] at h
  · exact absurd h (by simp)
  rcases hdc : insDeletedCol idx record with _ | dv <;> rw [hdc] at h
  · exact absurd h (by simp)
  rcases hpc : insPrevRevisionCol idx record with _ | pv <;> rw [hpc] at h
  · exact absurd h (by simp)
  exact ⟨⟨cv, rfl⟩, ⟨dv, rfl⟩, ⟨pv, rfl⟩⟩

/-- On a create whose `created` column did not violate, the key has no
live latest record. -/
theorem liveLatest_none_of_create (idx : List Record) (record : Record) (cv : Bool)
    (hc : record.created = true) (hcc : insCreatedCol idx record = some cv) :
    liveLatestForKey idx record.key = Option.none := by
  unfold insCreatedCol at hcc
  rw [hc] at hcc
  simp only [if_true] at hcc
  unfold liveLatestForKey
  rcases hl : latestForKey idx record.key with _ | l
  · rfl
  · rw [hl] at hcc
    by_cases hd : l.deleted = false
    · simp [hd] at hcc
    · have hd2 : l.deleted = true := by simpa using hd
      simp [hd2]

/-- On an op with positive `prev_revision` whose `prev_revision` column
did not violate, the key's live latest record exists and carries exactly
that revision. -/
theorem live_of_prevPos (idx : List Record) (record : Record) (pv : Int)
    (hp : 0 < record.prevRevision)
    (hpc : insPrevRevisionCol idx record = some pv) :
    ∃ l, liveLatestForKey idx record.key = some l ∧
      l.revision = record.prevRevision := by
  unfold insPrevRevisionCol at hpc
  rw [if_pos hp] at hpc
  split_ifs at hpc with he
  · unfold insLiveRevision at he
    rcases hl : liveLatestForKey idx record.key with _ | l <;> rw [hl] at he <;>
      simp only [] at he
    · omega
    · exact ⟨l, rfl, he.symm⟩

/-- A parsed draft is either a create (`created = true`, `deleted = false`,
`prev_revision = 0`) or an update/delete (`created = false`,
`prev_revision > 0`): the shape `ParseTxnRequest` guarantees. -/
theorem parseTxnRequest_ok_shape (r : TxnRequest) (rec0 : Record)
    (h : parseTxnRequest r = .ok rec0) :
    (rec0.created = true ∧ rec0.deleted = false ∧ rec0.prevRevision = 0) ∨
    (rec0.created = false ∧ 0 < rec0.prevRevision) := by
  have hclassify : ∀ (mod : Int) (sp : Option PutRequest) (sd : Option DeleteRangeRequest)
      (fr : Option RangeRequest),
      parseTxnRequest.classify mod sp sd fr = .ok rec0 →
      (rec0.created = true ∧ rec0.deleted = false ∧ rec0.prevRevision = 0) ∨
      (rec0.created = false ∧ 0 < rec0.prevRevision) := by
    intro mod sp sd fr hcl
    unfold parseTxnRequest.classify at hcl
    rcases sp with _ | p <;> rcases sd with _ | d <;> dsimp only at hcl
    · exact absurd hcl (by simp)
    · split_ifs at hcl with h1
      · simp only [Except.ok.injEq] at hcl
        subst hcl
        exact Or.inr ⟨rfl, by simpa using h1.1⟩
    · split_ifs at hcl with h1 h2
      · simp only [Except.ok.injEq] at hcl
        subst hcl
        exact Or.inl ⟨rfl, rfl, rfl⟩
      · simp only [Except.ok.injEq] at hcl
        subst hcl
        exact Or.inr ⟨rfl, by simpa using h2.1⟩
    · exact absurd hcl (by simp)
  unfold parseTxnRequest at h
  obtain ⟨rc, rs, rf⟩ := r
  rcases rc with _ | ⟨c, _ | ⟨c2, rcrest⟩⟩ <;>
    rcases rs with _ | ⟨sop, _ | ⟨s2, rsrest⟩⟩ <;>
    (try dsimp only at h) <;>
    try exact Except.noConfusion h
  split_ifs at h
  rcases rf with _ | ⟨f, _ | ⟨f2, rfrest⟩⟩
  · exact hclassify _ _ _ _ h
  · dsimp only at h
    rcases hfr : f.getRange with _ | fr <;> rw [hfr] at h
    · exact absurd h (by simp)
    · (try dsimp only at h)
      split_ifs at h
      exact hclassify _ _ _ _ h
  · exact absurd h (by simp)

/-- C2: every successfully inserted row stores `create_revision` equal to
the live latest row's `create_revision` when a live row for the key
exists and to the pre-insert `MAX(revision) + 1` otherwise, and stores
`version = 0` on a delete and otherwise the previous latest row's version
plus one (1 when the key has no previous record); and under the leader
protocol (`LeaderReachable`: caller-supplied `revision = MAX(revision) + 1`)
every record's `create_revision` equals the `revision` of its
generation's create — a create record for the same key whose own
`create_revision` equals its `revision`. -/
theorem insertRecord_column_and_generation_invariant :
    (∀ (idx : List Record) (record : Record) (now : Int)
        (idx2 : List Record) (row : Record),
      insertRecord idx record now = .ok (idx2, row) →
      row.createRevision = (match liveLatestForKey idx record.key with
        | some l => l.createRevision
        | Option.none => maxRevision idx + 1) ∧
      row.version = (if record.deleted then 0 else
        match latestForKey idx record.key with
        | some l => l.version + 1
        | Option.none => 1)) ∧
    (∀ idx : List Record, LeaderReachable idx → ∀ rec ∈ idx,
      ∃ c ∈ idx, c.created = true ∧ c.key = rec.key ∧
        c.revision = rec.createRevision ∧ c.createRevision = c.revision) := by
  constructor
  · intro idx record now idx2 row h
    obtain ⟨-, hrow, -⟩ := insertRecord_ok_spec idx record now idx2 row h
    subst hrow
    constructor
    · show insCreateRevisionCol idx record = _
      unfold insCreateRevisionCol
      rfl
    · show insVersionCol idx record = _
      unfold insVersionCol
      by_cases hd : record.deleted = true
      · rw [if_pos hd, if_pos hd]
      · rw [if_neg hd, if_neg hd]
        rcases latestForKey idx record.key with _ | l
        · rfl
        · rfl
  · intro idx hreach
    induction hreach with
    | nil =>
      intro rec hmem
      cases hmem
    | step idx req lid now rec0 idx2 row hr hparse hins ih =>
      obtain ⟨-, hrow, hidx2⟩ := insertRecord_ok_spec _ _ _ _ _ hins
      subst hrow
      subst hidx2
      intro rec hmem
      rcases List.mem_append.mp hmem with hin | hlast
      · obtain ⟨c, hcmem, hc1, hc2, hc3, hc4⟩ := ih rec hin
        exact ⟨c, List.mem_append_left _ hcmem, hc1, hc2, hc3, hc4⟩
      · have hrec := List.mem_singleton.mp hlast
        subst hrec
        rcases parseTxnRequest_ok_shape req rec0 hparse with ⟨hcr, -, -⟩ | ⟨-, hprev⟩
        · obtain ⟨⟨cv, hcc⟩, -, -⟩ := insertRecord_ok_cols _ _ _ _ _ hins
          have hlive := liveLatest_none_of_create _ _ cv hcr hcc
          have hcrv : insCreateRevisionCol idx
              { rec0 with leaderId := lid, revision := maxRevision idx + 1 } =
              maxRevision idx + 1 := by
            unfold insCreateRevisionCol
            rw [hlive]
          refine ⟨_, List.mem_append_right _ (List.mem_singleton_self _),
            hcr, rfl, ?_, ?_⟩
          · exact hcrv.symm
          · exact hcrv
        · obtain ⟨-, -, ⟨pv, hpc⟩⟩ := insertRecord_ok_cols _ _ _ _ _ hins
          obtain ⟨l, hl, -⟩ := live_of_prevPos idx _ pv hprev hpc
          obtain ⟨hlat, -⟩ := liveLatestForKey_some idx _ l hl
          obtain ⟨hlmem, hlkey⟩ := latestForKey_mem idx _ l hlat
          obtain ⟨c, hcmem, hc1, hc2, hc3, hc4⟩ := ih l hlmem
          have hcrv : insCreateRevisionCol idx
              { rec0 with leaderId := lid, revision := maxRevision idx + 1 } =
              l.createRevision := by
            unfold insCreateRevisionCol
            rw [hl]
          refine ⟨c, List.mem_append_left _ hcmem, hc1, ?_, ?_, hc4⟩
          · rw [hc2, hlkey]
          · rw [hc3, ← hcrv]

/-- Witness for C2: inserting a fresh create at revision 1 into the empty
index yields a row with `create_revision = MAX(revision) + 1 = 1` and
`version = 1`. -/
theorem insertRecord_column_and_generation_invariant_witness :
    insertRecord [] draftC2 0 = .ok ([rowC2], rowC2) ∧
    rowC2.createRevision = 1 ∧ rowC2.version = 1 := by
  have h : insertRecord [] draftC2 0 = .ok ([rowC2], rowC2) := by rfl
  obtain ⟨h1, h2⟩ :=
    (insertRecord_column_and_generation_invariant).1 [] draftC2 0 _ _ h
  exact ⟨h, h1.trans (by decide), h2.trans (by decide)⟩

/-- C5 counterexample: after creating k=v1 and updating to v2 the store
does hold v2 at revision 2, but the conflicting create with compare
mod(k)=0 and no failure op answers with an EMPTY response list — not with
a ResponseRange carrying the kv ("v2"): clientapi.Txn swallows the
CreateKeyExists error from LeaderTxn and returns a header-only
TxnResponse. -/
theorem clientTxn_create_conflict_empty_responses :
    (liveLatestForKey stAfterUpdateC5.idx [107]).map
      (fun rec => (rec.value, rec.revision)) = some ([118, 50], 2) ∧
    (clientTxn stAfterUpdateC5 txnConflictC5 [108] 2 true).2.1 =
      { revision := 2, succeeded := false, responses := [] } := by
  constructor
  · rfl
  · rfl

/-- C5 (amended): when the parsed draft's insert fails with
CreateKeyExists and the request carries no single failure op to fall back
on, clientapi.Txn surfaces the conflict as a failed transaction with an
empty response list: Succeeded=false, no responses, and the header
revision equal to the store's latest revision; the state is unchanged. -/
theorem clientTxn_conflict_reports_failed_txn (st : ServerState) (r : TxnRequest)
    (lid : List Nat) (now : Int) (s3ok : Bool) (rec0 : Record)
    (hp : parseTxnRequest r = .ok rec0)
    (hins : insertRecord st.idx
      { rec0 with leaderId := lid, revision := st.nextRevisionID } now =
      .error .createKeyExists) :
    clientTxn st r lid now s3ok =
      (st, { revision := maxRevision st.idx, succeeded := false, responses := [] },
       Option.none) := by
  have hlt : leaderTxn st r lid now s3ok = (st, .error (.insert .createKeyExists)) := by
    unfold leaderTxn
    rw [hp]
    dsimp only
    rw [hins]
    dsimp only
    rw [if_neg (by rintro ⟨h, -⟩; exact InsertError.noConfusion h)]
  unfold clientTxn
  rw [hlt]

/-- Witness for the amended C5: against a store holding k created at
revision 1 and updated to v2 at revision 2, the conflicting create
returns Succeeded=false, an empty response list and header revision 2,
leaving the state untouched. -/
theorem clientTxn_conflict_reports_failed_txn_witness :
    clientTxn stAfterUpdateC5 txnConflictC5 [108] 2 true =
      (stAfterUpdateC5,
       { revision := 2, succeeded := false, responses := [] }, Option.none) :=
  clientTxn_conflict_reports_failed_txn stAfterUpdateC5 txnConflictC5 [108] 2 true
    { Record.zero with key := [107], value := [118, 51], created := true } rfl rfl

/-- Closed form of `writeAll`: the body grows by the record frames, the
hasher by the crc-zero serializations, first/last revision and the count
fold over the records, and the stamped records are returned. -/
theorem writeAll_spec (recs : List Record) (w : WriterState) :
    writeAll w recs =
      ({ w with
         body := w.body ++ bodyFrames recs
         hasherBytes := w.hasherBytes ++ recsData recs
         firstRevision := recs.foldl
           (fun f rec => if f = 0 then rec.revision else f) w.firstRevision
         lastRevision := recs.foldl (fun _ rec => rec.revision) w.lastRevision
         lastCount := w.lastCount + recs.length },
       recs.map stampRecord) := by
  induction recs generalizing w with
  | nil => simp [writeAll, bodyFrames, recsData]
  | cons r rest ih =>
    simp only [writeAll, writerWrite, ih, bodyFrames, recsData, List.map_cons,
      List.foldl_cons, List.length_cons, stampRecord, Prod.mk.injEq, WriterState.mk.injEq]
    repeat' apply And.intro
    all_goals first
      | trivial
      | (rw [List.append_assoc])
      | (simp only [List.append_assoc]; done)
      | (simp [stampRecord]; done)
      | (push_cast; ring)

/-- Reading `n` framed stamped records from the stream mirrors the writer:
the records come back stamped and the reader state folds the same
revision bookkeeping over them. -/
theorem readAll_frames (recs : List Record) (rs : ReaderState) (tail : List Nat)
    (hrest : rs.rest = bodyFrames recs ++ tail) :
    readAll rs recs.length =
      .ok (recs.map stampRecord,
        { rs with
          hasherBytes := rs.hasherBytes ++ recsData recs
          firstRevision := recs.foldl
            (fun f rec => if f = 0 then rec.revision else f) rs.firstRevision
          lastRevision := recs.foldl (fun _ rec => rec.revision) rs.lastRevision
          lastCount := rs.lastCount + recs.length
          rest := tail }) := by
  induction recs generalizing rs with
  | nil =>
    have htail : tail = rs.rest := by simpa [bodyFrames] using hrest.symm
    subst htail
    simp [readAll, recsData]
  | cons r rest ih =>
    have hparse : parseDelim parseRecordFrom rs.rest =
        some (stampRecord r, bodyFrames rest ++ tail) := by
      rw [hrest, bodyFrames, List.append_assoc]
      exact parseDelim_frameOf parseRecordFrom _ _ _
        (fun t => parseRecordFrom_marshalRecord _ t)
    have hcrc : (stampRecord r).crc =
        crc64Checksum (marshalRecord { stampRecord r with crc := 0 }) := by
      rfl
    simp only [List.length_cons, readAll, readerRead, hparse]
    rw [if_neg (by simpa using hcrc)]
    dsimp only
    rw [ih _ rfl]
    simp only [List.map_cons, recsData, List.foldl_cons, Except.ok.injEq, Prod.mk.injEq,
      ReaderState.mk.injEq]
    repeat' apply And.intro
    any_goals first
      | trivial
      | (rw [List.append_assoc])
      | (simp only [List.append_assoc]; done)
      | (simp [stampRecord]; done)
      | (push_cast; ring)
    rfl

/-- C7: for every record sequence and either supported compression mode
(NONE or ZSTD), the writer pipeline (header, framed CRC-stamped records,
footer) closes successfully, the reader accepts the produced bytes, `Read`
succeeds once per record giving back exactly the stamped records, `Close`
succeeds, and the aggregate records CRC the reader recomputed equals the
`RecordsCrc` stored in the footer. -/
theorem datafile_roundtrip (codec : ZstdCodec) (kind : FileKind)
    (comp : FileCompression) (recs : List Record) (lid : List Nat) (createdAt : Option Int)
    (hcomp : comp = FileCompression.none ∨ comp = FileCompression.zstd) :
    (writeAll (newWriterWithCompression kind (recs.length : Int) lid createdAt
      (some comp)) recs).2 = recs.map stampRecord ∧
    writerClose codec (writeAll (newWriterWithCompression kind (recs.length : Int) lid
      createdAt (some comp)) recs).1 =
      .ok (fileBytesFor codec kind comp recs lid createdAt) ∧
    newReader codec (fileBytesFor codec kind comp recs lid createdAt) (some kind) =
      .ok (rsInit kind comp recs) ∧
    readAll (rsInit kind comp recs) recs.length =
      .ok (recs.map stampRecord, rsFinal kind comp recs) ∧
    readerClose (rsFinal kind comp recs) =
      .ok { kind := kind, recordsCount := (recs.length : Int)
            firstRevision := (rsFinal kind comp recs).firstRevision
            lastRevision := (rsFinal kind comp recs).lastRevision } ∧
    crc64Checksum (rsFinal kind comp recs).hasherBytes = (footerFor recs).recordsCrc := by
  have hcompu : comp ≠ FileCompression.unknown := by
    rcases hcomp with h | h <;> simp [h]
  refine ⟨?_, ?_, ?_, ?_, ?_, ?_⟩
  · rw [writeAll_spec]
  · rw [writeAll_spec]
    simp only [newWriterWithCompression, writerClose, fileBytesFor, headerFor, footerFor,
      fileBody]
    simp
  · have hph : parseDelim parseHeaderFrom (fileBytesFor codec kind comp recs lid createdAt) =
        some (headerFor kind comp (recs.length : Int) lid createdAt,
          if comp = FileCompression.zstd then codec.comp (fileBody recs) else fileBody recs) := by
      unfold fileBytesFor
      exact parseDelim_frameOf _ _ _ _ (fun t => parseHeaderFrom_marshalHeader _ t)
    unfold newReader
    rw [hph]
    simp only [headerFor]
    rw [if_neg (by simp)]
    rw [if_neg (by simpa using hcompu)]
    rw [if_neg (by simp)]
    rcases hcomp with h | h <;> subst h
    · simp [rsInit]
    · simp [rsInit, ZstdCodec.roundtrip]
  · have h := readAll_frames recs (rsInit kind comp recs)
      (frameOf (marshalFooter (footerFor recs))) (by simp [rsInit, fileBody])
    rw [h]
    simp [rsInit, rsFinal]
  · unfold readerClose
    rw [if_neg (by simp [rsFinal])]
    have hpf : parseDelim parseFooterFrom (rsFinal kind comp recs).rest =
        some (footerFor recs, []) := by
      have : (rsFinal kind comp recs).rest =
          frameOf (marshalFooter (footerFor recs)) ++ [] := by simp [rsFinal]
      rw [this]
      exact parseDelim_frameOf _ _ _ _ (fun t => parseFooterFrom_marshalFooter _ t)
    rw [hpf]
    simp only [footerFor]
    rw [if_neg (by simp)]
    rw [if_neg (by simp [rsFinal])]
    rw [if_neg (by simp [rsFinal])]
    rw [if_neg (by simp [rsFinal])]
    simp [rsFinal]
  · simp [rsFinal, footerFor]

/-- Witness for C7: two records written uncompressed through the pipeline
come back stamped, with both closes succeeding and matching aggregate CRCs. -/
theorem datafile_roundtrip_witness :
    (writeAll (newWriterWithCompression FileKind.chunk
      (([recR1, recR2] : List Record).length : Int) [108] (some 0)
      (some FileCompression.none)) [recR1, recR2]).2 = [recR1, recR2].map stampRecord ∧
    writerClose idCodec (writeAll (newWriterWithCompression FileKind.chunk
      (([recR1, recR2] : List Record).length : Int) [108] (some 0)
      (some FileCompression.none)) [recR1, recR2]).1 =
      .ok (fileBytesFor idCodec FileKind.chunk FileCompression.none [recR1, recR2]
        [108] (some 0)) ∧
    newReader idCodec (fileBytesFor idCodec FileKind.chunk FileCompression.none
      [recR1, recR2] [108] (some 0)) (some FileKind.chunk) =
      .ok (rsInit FileKind.chunk FileCompression.none [recR1, recR2]) ∧
    readAll (rsInit FileKind.chunk FileCompression.none [recR1, recR2])
      ([recR1, recR2] : List Record).length =
      .ok ([recR1, recR2].map stampRecord,
        rsFinal FileKind.chunk FileCompression.none [recR1, recR2]) ∧
    readerClose (rsFinal FileKind.chunk FileCompression.none [recR1, recR2]) =
      .ok { kind := FileKind.chunk
            recordsCount := (([recR1, recR2] : List Record).length : Int)
            firstRevision := (rsFinal FileKind.chunk FileCompression.none
              [recR1, recR2]).firstRevision
            lastRevision := (rsFinal FileKind.chunk FileCompression.none
              [recR1, recR2]).lastRevision } ∧
    crc64Checksum (rsFinal FileKind.chunk FileCompression.none
      [recR1, recR2]).hasherBytes = (footerFor [recR1, recR2]).recordsCrc :=
  datafile_roundtrip idCodec FileKind.chunk FileCompression.none [recR1, recR2]
    [108] (some 0) (Or.inl rfl)

/-- Opening a stream that starts with a stamped header succeeds and hands
back the declared count and the (decompressed) remainder. -/
theorem newReader_ok (codec : ZstdCodec) (kind : FileKind) (comp : FileCompression)
    (n : Int) (lid : List Nat) (createdAt : Option Int) (rest : List Nat)
    (hcomp : comp ≠ FileCompression.unknown) :
    newReader codec (frameOf (marshalHeader (headerFor kind comp n lid createdAt)) ++
      (if comp = FileCompression.zstd then codec.comp rest else rest)) (some kind) =
      .ok { kind := kind, compression := comp, expectedRecordsCount := n
            hasherBytes := [], firstRevision := 0, lastRevision := 0, lastCount := 0
            rest := rest } := by
  have hph : parseDelim parseHeaderFrom
      (frameOf (marshalHeader (headerFor kind comp n lid createdAt)) ++
        (if comp = FileCompression.zstd then codec.comp rest else rest)) =
      some (headerFor kind comp n lid createdAt,
        if comp = FileCompression.zstd then codec.comp rest else rest) :=
    parseDelim_frameOf _ _ _ _ (fun t => parseHeaderFrom_marshalHeader _ t)
  unfold newReader
  rw [hph]
  simp only [headerFor]
  rw [if_neg (by simp)]
  rw [if_neg (by simpa using hcomp)]
  rw [if_neg (by simp)]
  by_cases hz : comp = FileCompression.zstd
  · subst hz
    simp [ZstdCodec.roundtrip]
  · simp [hz]

/-- C8 (amended): Reader.Read errors exactly when no well-formed framed
record can be read from the stream (end of stream or unmarshal failure)
or the record's CRC does not verify against its crc-zero serialization;
Reader.Close errors exactly when the number of records read DIFFERS from
the header-declared count (fewer or more), the footer cannot be read, the
footer CRC does not verify, the aggregate records CRC differs from the
footer's RecordsCrc, or the observed first/last revisions differ from the
footer's. -/
theorem reader_error_characterization (r : ReaderState) :
    ((∃ e, readerRead r = .error e) ↔
      parseDelim parseRecordFrom r.rest = Option.none ∨
      (∃ rec rest2, parseDelim parseRecordFrom r.rest = some (rec, rest2) ∧
        rec.crc ≠ crc64Checksum (marshalRecord { rec with crc := 0 }))) ∧
    ((∃ e, readerClose r = .error e) ↔
      r.lastCount ≠ r.expectedRecordsCount ∨
      parseDelim parseFooterFrom r.rest = Option.none ∨
      (∃ f rest2, parseDelim parseFooterFrom r.rest = some (f, rest2) ∧
        (f.crc ≠ crc64Checksum (marshalFooter { f with crc := 0 }) ∨
         f.recordsCrc ≠ crc64Checksum r.hasherBytes ∨
         r.firstRevision ≠ f.firstRevision ∨
         r.lastRevision ≠ f.lastRevision))) := by
  constructor
  · unfold readerRead
    rcases hp : parseDelim parseRecordFrom r.rest with _ | ⟨rec, rest2⟩
    · simp
    · dsimp only
      by_cases hcrc : rec.crc = crc64Checksum (marshalRecord { rec with crc := 0 })
      · rw [if_neg (by simpa using hcrc)]
        simp [hcrc]
      · rw [if_pos (by simpa using hcrc)]
        simp [hcrc]
  · unfold readerClose
    by_cases hcount : r.lastCount = r.expectedRecordsCount
    · rw [if_neg (by simpa using hcount)]
      rcases hp : parseDelim parseFooterFrom r.rest with _ | ⟨f, rest2⟩
      · simp [hcount]
      · dsimp only
        by_cases h1 : f.crc = crc64Checksum (marshalFooter { f with crc := 0 })
        · rw [if_neg (by simpa using h1)]
          by_cases h2 : f.recordsCrc = crc64Checksum r.hasherBytes
          · rw [if_neg (by simpa using h2)]
            by_cases h3 : r.firstRevision = f.firstRevision
            · rw [if_neg (by simpa using h3)]
              by_cases h4 : r.lastRevision = f.lastRevision
              · rw [if_neg (by simpa using h4)]
                simp [hcount, h1, h2, h3, h4]
              · rw [if_pos (by simpa using h4)]
                simp [hcount, h4]
            · rw [if_pos (by simpa using h3)]
              simp [hcount, h3]
          · rw [if_pos (by simpa using h2)]
            simp [hcount, h2]
        · rw [if_pos (by simpa using h1)]
          simp [hcount, h1]
    · rw [if_pos (by simpa using hcount)]
      simp [hcount]

/-- C8 counterexample: on a stream declaring one record but carrying two,
both reads succeed and Close errors with the count mismatch, although
every error condition the claim lists is false: the records read are not
FEWER than declared, the footer CRC verifies, the aggregate records CRC
matches the footer, and the observed first/last revisions match the
footer. -/
theorem readerClose_count_overrun :
    newReader idCodec overrunStream (some FileKind.chunk) = .ok rsOverrun0 ∧
    readAll rsOverrun0 2 = .ok ([stampRecord recR1, stampRecord recR2], rsOverrun2) ∧
    readerClose rsOverrun2 = .error .countMismatch ∧
    ¬ rsOverrun2.lastCount < rsOverrun2.expectedRecordsCount ∧
    (footerFor [recR1, recR2]).crc =
      crc64Checksum (marshalFooter { footerFor [recR1, recR2] with crc := 0 }) ∧
    (footerFor [recR1, recR2]).recordsCrc = crc64Checksum rsOverrun2.hasherBytes ∧
    rsOverrun2.firstRevision = (footerFor [recR1, recR2]).firstRevision ∧
    rsOverrun2.lastRevision = (footerFor [recR1, recR2]).lastRevision := by
  refine ⟨?_, ?_, ?_, ?_, ?_, ?_, ?_, ?_⟩
  · exact newReader_ok idCodec FileKind.chunk FileCompression.none 1 [108] (some 0)
      (fileBody [recR1, recR2]) (by simp)
  · have h := readAll_frames [recR1, recR2] rsOverrun0
      (frameOf (marshalFooter (footerFor [recR1, recR2]))) rfl
    simpa [rsOverrun0, rsOverrun2, recR1, recR2, Record.zero] using h
  · unfold readerClose
    rw [if_pos (by simp [rsOverrun2, rsOverrun0])]
  · simp [rsOverrun2, rsOverrun0]
  · rfl
  · rfl
  · rfl
  · rfl

/-- Witness for C3: from an empty store the counter starts at 1, the first
committed record (the create of k=v1) is stamped with revision 1 while
the counter moves to 2, and a one-commit run yields the consecutive
revision list [1]. -/
theorem revisionCounter_discipline_witness :
    (initServer [] []).nextRevisionID = maxRevision [] + 1 ∧
    rowC2.revision = (initServer [] []).nextRevisionID ∧
    (leaderTxn (initServer [] []) txnCreateC5 [108] 0 true).1.nextRevisionID =
      (initServer [] []).nextRevisionID + 1 ∧
    ((runTxns (initServer [] []) [(txnCreateC5, [108], 0, true)]).2).map Record.revision =
      (List.range
        ((runTxns (initServer [] []) [(txnCreateC5, [108], 0, true)]).2).length).map
        (fun i : Nat => (initServer [] []).nextRevisionID + (i : Int)) := by
  obtain ⟨h1, h2, h3, h4⟩ := revisionCounter_discipline
  have hok : (leaderTxn (initServer [] []) txnCreateC5 [108] 0 true).2 =
      .ok (some rowC2,
        { revision := 1, succeeded := true, responses := [.put { revision := 1 }] }) := by
    rfl
  obtain ⟨ha, hb⟩ := h2 _ _ _ _ _ _ _ hok
  exact ⟨h1 [] [], ha, hb, h4 _ _⟩

end Netsy
